import Mathlib

/-!
Verification of the subreddit-insights data-acquisition and analysis pipeline.

The definitions below are a shallow embedding of `src/reddit.ts` and
`src/llm.ts`:
* pure functions become Lean functions;
* the JavaScript `Map` becomes an insertion-ordered association list with
  JS `Map.get` / `Map.set` semantics;
* network I/O becomes an oracle (a function from call index to outcome),
  and the `async` retry loops become fuel-indexed recursions whose traces
  (sleeps, fetch calls) are returned explicitly;
* JS numbers used as integral counters/timestamps become `Int`/`Nat`.
-/

set_option maxHeartbeats 1000000

namespace SubredditInsights

/-! ## llm.ts data model -/

/-- The `'high' | 'medium' | 'low'` string union used for `frequency` and
`confidence` in `src/llm.ts`. -/
inductive Freq where
  | low
  | medium
  | high
deriving Repr, DecidableEq

/-- `interface Pain` from `src/llm.ts`. -/
structure Pain where
  description : String
  frequency : Freq
  evidence : List String
deriving Repr, DecidableEq

/-- `interface Pattern` from `src/llm.ts`. -/
structure Pattern where
  name : String
  description : String
  occurrences : Int
deriving Repr, DecidableEq

/-- `interface Quote` from `src/llm.ts`. -/
structure Quote where
  text : String
  context : String
  author : String
  score : Int
deriving Repr, DecidableEq

/-- `interface UserLanguage` from `src/llm.ts`. -/
structure UserLanguage where
  commonTerms : List String
  tone : String
  emotionalPatterns : List String
deriving Repr, DecidableEq

/-- `interface Hypothesis` from `src/llm.ts`. -/
structure Hypothesis where
  statement : String
  confidence : Freq
  supportingEvidence : List String
deriving Repr, DecidableEq

/-- `interface AnalysisResult` from `src/llm.ts`. -/
structure AnalysisResult where
  pains : List Pain
  patterns : List Pattern
  quotes : List Quote
  userLanguage : UserLanguage
  hypotheses : List Hypothesis
deriving Repr, DecidableEq

/-! ## mergeAnalysisResults (src/llm.ts lines 192-272) -/

/-- The frequency-upgrade rule inside the pain-merging loop of
`mergeAnalysisResults`:
`if (pain.frequency === 'high' || existing.frequency === 'high') high
 else if (pain.frequency === 'medium' || existing.frequency === 'medium') medium
 else` keep the existing frequency. -/
def upgradeFreq (existing new : Freq) : Freq :=
  if new = .high ∨ existing = .high then .high
  else if new = .medium ∨ existing = .medium then .medium
  else existing

/-- JS `String.toLowerCase`, embedded as the character-wise lowercase map
(the same semantics as `String.toLower`, defined over the character list
so that it evaluates inside the kernel). -/
def jsToLower (s : String) : String := String.mk (s.data.map Char.toLower)

/-- The dedup key for a pain: `pain.description.toLowerCase()`. -/
def painKey (p : Pain) : String := jsToLower p.description

/-- The dedup key for a pattern: `pattern.name.toLowerCase()`. -/
def patternKey (q : Pattern) : String := jsToLower q.name

/-- One step of the `painMap` accumulation loop in `mergeAnalysisResults`:
on a key collision the stored entry's evidence is extended and its
frequency upgraded, otherwise a copy of the pain is appended under its
lowercased key (JS `Map` preserves insertion order and `set` on an existing
key updates in place). -/
def painStep : List (String × Pain) → Pain → List (String × Pain)
  | [], p => [(painKey p, p)]
  | e :: rest, p =>
    if e.1 == painKey p then
      (e.1, { e.2 with
              evidence := e.2.evidence ++ p.evidence,
              frequency := upgradeFreq e.2.frequency p.frequency }) :: rest
    else e :: painStep rest p

/-- One step of the `patternMap` accumulation loop in
`mergeAnalysisResults`: on a key collision `occurrences` are summed. -/
def patternStep : List (String × Pattern) → Pattern → List (String × Pattern)
  | [], q => [(patternKey q, q)]
  | e :: rest, q =>
    if e.1 == patternKey q then
      (e.1, { e.2 with occurrences := e.2.occurrences + q.occurrences }) :: rest
    else e :: patternStep rest q

/-- JS `Set.add` on an insertion-ordered string set. -/
def setAdd (l : List String) (x : String) : List String :=
  if l.contains x then l else l ++ [x]

/-- One step of the hypothesis-dedup loop: the key is the first 100
characters of `hypothesis.statement.toLowerCase()`. -/
def hypStep (acc : List String × List Hypothesis) (h : Hypothesis) :
    List String × List Hypothesis :=
  let key := (jsToLower h.statement).take 100
  if acc.1.contains key then acc else (acc.1 ++ [key], acc.2 ++ [h])

/-- `allQuotes.sort((a, b) => b.score - a.score)`: stable sort descending
by score. -/
def sortQuotesDesc (l : List Quote) : List Quote :=
  l.mergeSort (fun a b => b.score ≤ a.score)

/-- The multi-result branch of `mergeAnalysisResults` (everything after the
`results.length === 1` early return in `src/llm.ts`). -/
def mergeMany (results : List AnalysisResult) : AnalysisResult :=
  let painM := ((results.map (·.pains)).flatten).foldl painStep []
  let patternM := ((results.map (·.patterns)).flatten).foldl patternStep []
  let allQuotes := (results.map (·.quotes)).flatten
  let topQuotes := (sortQuotesDesc allQuotes).take 10
  let allTerms := ((results.map (fun r => r.userLanguage.commonTerms)).flatten).foldl setAdd []
  let allEmotional :=
    ((results.map (fun r => r.userLanguage.emotionalPatterns)).flatten).foldl setAdd []
  let tones := results.map (fun r => r.userLanguage.tone)
  let allHypotheses := (((results.map (·.hypotheses)).flatten).foldl hypStep ([], [])).2
  { pains := (painM.map (·.2)).take 10,
    patterns := (patternM.map (·.2)).take 10,
    quotes := topQuotes,
    userLanguage :=
      { commonTerms := allTerms.take 10,
        tone := match tones.head? with
          | some t => if t == "" then "mixed" else t
          | none => "mixed",
        emotionalPatterns := allEmotional.take 5 },
    hypotheses := allHypotheses.take 5 }

/-- `mergeAnalysisResults` from `src/llm.ts`: a single result is returned
as-is (`if (results.length === 1) return results[0]`), otherwise all
results are merged. -/
def mergeAnalysisResults (results : List AnalysisResult) : AnalysisResult :=
  match results with
  | [r] => r
  | rs => mergeMany rs

/-! ## reddit.ts data model -/

/-- `interface RedditPost` from `src/reddit.ts`. -/
structure RedditPost where
  id : String
  title : String
  selftext : String
  author : String
  score : Int
  numComments : Int
  createdUtc : Int
  url : String
  permalink : String
deriving Repr, DecidableEq

/-- `interface RedditComment` from `src/reddit.ts` (recursive through
`replies: RedditComment[]`). -/
inductive RedditComment where
  | mk (id : String) (body : String) (author : String) (score : Int)
      (createdUtc : Int) (postId : String) (parentId : String)
      (replies : List RedditComment) : RedditComment
deriving Repr

def RedditComment.body : RedditComment → String
  | .mk _ b _ _ _ _ _ _ => b

def RedditComment.author : RedditComment → String
  | .mk _ _ a _ _ _ _ _ => a

def RedditComment.score : RedditComment → Int
  | .mk _ _ _ s _ _ _ _ => s

def RedditComment.replies : RedditComment → List RedditComment
  | .mk _ _ _ _ _ _ _ r => r

/-- `flattenComments` from `src/llm.ts`: pre-order flattening of the
comment forest (each comment followed by its flattened replies). -/
def flattenComments : List RedditComment → List RedditComment
  | [] => []
  | .mk i b a s cu pi pa rs :: rest =>
    .mk i b a s cu pi pa rs :: (flattenComments rs ++ flattenComments rest)

/-- The `Map<string, RedditComment[]>` of `src/reddit.ts`, embedded as an
insertion-ordered association list. -/
abbrev CommentsMap := List (String × List RedditComment)

/-- JS `Map.get`: the value of the (unique) entry with the given key. -/
def mapGet : CommentsMap → String → Option (List RedditComment)
  | [], _ => none
  | e :: rest, k => if e.1 == k then some e.2 else mapGet rest k

/-- JS `Map.set`: update the existing entry in place, or append a new
entry (JS `Map` preserves insertion order and keeps keys unique). -/
def mapSet : CommentsMap → String → List RedditComment → CommentsMap
  | [], k, v => [(k, v)]
  | e :: rest, k, v => if e.1 == k then (k, v) :: rest else e :: mapSet rest k v

/-- `interface RedditData` from `src/reddit.ts`. -/
structure RedditData where
  subreddit : String
  posts : List RedditPost
  comments : CommentsMap

/-! ## dataToText and chunkData (src/llm.ts lines 64-147) -/

def MAX_TOKENS_PER_CHUNK : Nat := 80000

def CHARS_PER_TOKEN : Nat := 4

def MAX_CHARS_PER_CHUNK : Nat := MAX_TOKENS_PER_CHUNK * CHARS_PER_TOKEN

/-- The lines pushed for one post (and its comments) inside the
`for (const post of data.posts)` loop of `dataToText`. -/
def postLines (comments : CommentsMap) (post : RedditPost) : List String :=
  let base := ["## Post: " ++ post.title,
    "Score: " ++ toString post.score ++ " | Comments: " ++ toString post.numComments
      ++ " | Author: " ++ post.author]
  let base := if post.selftext ≠ "" then base ++ ["Content: " ++ post.selftext] else base
  let flat := flattenComments ((mapGet comments post.id).getD [])
  let commentLines := flat.filterMap (fun c =>
    if c.body ≠ "" ∧ c.body ≠ "[deleted]" ∧ c.body ≠ "[removed]" then
      some ("> [" ++ c.author ++ ", score: " ++ toString c.score ++ "]: " ++ c.body)
    else none)
  base ++ [""] ++ commentLines ++ ["", "---", ""]

/-- `dataToText` from `src/llm.ts`: header lines, then the lines of every
post, joined with newlines. -/
def dataToText (d : RedditData) : String :=
  let header := ["# Subreddit: r/" ++ d.subreddit,
    "# Total posts: " ++ toString d.posts.length, ""]
  String.intercalate "\n" (header ++ (d.posts.map (postLines d.comments)).flatten)

/-- The mutable state of the chunking loop in `chunkData`. -/
structure ChunkState where
  chunks : List RedditData
  currentPosts : List RedditPost
  currentComments : CommentsMap
  currentSize : Nat

/-- One iteration of the `for (const post of data.posts)` loop in
`chunkData`: seal the current chunk when adding this post would exceed the
budget and the chunk is non-empty, then add the post. -/
def chunkStep (d : RedditData) (st : ChunkState) (post : RedditPost) : ChunkState :=
  let postComments := (mapGet d.comments post.id).getD []
  let postData : RedditData := ⟨d.subreddit, [post], [(post.id, postComments)]⟩
  let postText := dataToText postData
  let st :=
    if MAX_CHARS_PER_CHUNK < st.currentSize + postText.length ∧ st.currentPosts ≠ [] then
      { chunks := st.chunks ++ [⟨d.subreddit, st.currentPosts, st.currentComments⟩],
        currentPosts := [], currentComments := [], currentSize := 0 }
    else st
  { st with
    currentPosts := st.currentPosts ++ [post],
    currentComments := mapSet st.currentComments post.id postComments,
    currentSize := st.currentSize + postText.length }

/-- `chunkData` from `src/llm.ts`: return the corpus unchanged when its
flattened text fits the budget, otherwise greedily pack whole posts into
chunks, sealing the trailing chunk at the end. -/
def chunkData (d : RedditData) : List RedditData :=
  if (dataToText d).length ≤ MAX_CHARS_PER_CHUNK then [d]
  else
    let st := d.posts.foldl (chunkStep d) ⟨[], [], [], 0⟩
    if st.currentPosts ≠ [] then
      st.chunks ++ [⟨d.subreddit, st.currentPosts, st.currentComments⟩]
    else st.chunks

/-! ## parseAnalysisResponse (src/llm.ts lines 275-300)

The response text is embedded as a `List Char` so that the fence-stripping
string operations (`trim`, `startsWith`, `slice`) can be reasoned about
character by character. -/

/-- The backtick character (code point 96). -/
def backtick : Char := Char.ofNat 96

/-- JS string whitespace (the characters relevant to `String.trim`). -/
def isJsWs (c : Char) : Bool :=
  c = ' ' ∨ c = '\t' ∨ c = '\n' ∨ c = '\r' ∨ c = Char.ofNat 11 ∨ c = Char.ofNat 12

/-- Left half of JS `String.trim`. -/
def trimLeft (s : List Char) : List Char := s.dropWhile isJsWs

/-- JS `String.trim`: drop whitespace from both ends. -/
def jsTrim (s : List Char) : List Char :=
  ((trimLeft s).reverse.dropWhile isJsWs).reverse

/-- JS `String.startsWith` (prefix test). -/
def listStartsWith (p s : List Char) : Bool := decide (s.take p.length = p)

/-- JS `String.endsWith` (suffix test). -/
def listEndsWith (p s : List Char) : Bool := decide (s.reverse.take p.length = p.reverse)

/-- The defensive fence-stripping stage of `parseAnalysisResponse`: trim,
drop a leading triple-backtick fence (with or without the `json` tag),
drop a trailing triple-backtick fence, trim again.  This is exactly the
text handed to `JSON.parse`. -/
def stripFences (response : List Char) : List Char :=
  let s := jsTrim response
  let s :=
    if listStartsWith "```json".toList s then s.drop 7
    else if listStartsWith "```".toList s then s.drop 3
    else s
  let s := if listEndsWith "```".toList s then s.take (s.length - 3) else s
  jsTrim s

/-- A JavaScript value produced by `JSON.parse` (plus `undefined`, the
result of reading a missing property). -/
inductive Json where
  | undefined
  | null
  | bool (b : Bool)
  | num (n : Int)
  | str (s : String)
  | arr (xs : List Json)
  | obj (fields : List (String × Json))
deriving Repr

/-- JS property read `j.k` (on a non-object this is `undefined`). -/
def jsGet (j : Json) (k : String) : Json :=
  match j with
  | .obj fields => ((fields.find? (fun f => f.1 == k)).map (·.2)).getD .undefined
  | _ => .undefined

/-- `Array.isArray(x) ? x : []` as used by the field validation of
`parseAnalysisResponse`. -/
def arrayOrEmpty (j : Json) : List Json :=
  match j with
  | .arr xs => xs
  | _ => []

/-- JS truthiness of a JSON value, for `parsed.userLanguage || {...}`. -/
def jsTruthy (j : Json) : Bool :=
  match j with
  | .undefined => false
  | .null => false
  | .bool b => b
  | .num n => n ≠ 0
  | .str s => s ≠ ""
  | .arr _ => true
  | .obj _ => true

/-- The `AnalysisResult` value built by `parseAnalysisResponse` before the
TypeScript casts: the element values are raw JSON (the code never
validates the elements, only `Array.isArray` on the five fields). -/
structure RawAnalysisResult where
  pains : List Json
  patterns : List Json
  quotes : List Json
  userLanguage : Json
  hypotheses : List Json
deriving Repr

/-- The default `userLanguage` object of `parseAnalysisResponse`. -/
def defaultUserLanguage : Json :=
  .obj [("commonTerms", .arr []), ("tone", .str "unknown"), ("emotionalPatterns", .arr [])]

/-- The validation/defaulting step of `parseAnalysisResponse` applied to
the value returned by `JSON.parse`. -/
def validateAnalysis (parsed : Json) : RawAnalysisResult :=
  { pains := arrayOrEmpty (jsGet parsed "pains"),
    patterns := arrayOrEmpty (jsGet parsed "patterns"),
    quotes := arrayOrEmpty (jsGet parsed "quotes"),
    userLanguage :=
      if jsTruthy (jsGet parsed "userLanguage") then jsGet parsed "userLanguage"
      else defaultUserLanguage,
    hypotheses := arrayOrEmpty (jsGet parsed "hypotheses") }

/-- `parseAnalysisResponse` from `src/llm.ts`, parameterized by the
external `JSON.parse` (`none` models a thrown `SyntaxError`). -/
def parseAnalysisResponse (jsonParse : List Char → Option Json) (response : List Char) :
    Option RawAnalysisResult :=
  (jsonParse (stripFences response)).map validateAnalysis

/-- Wrapping a response in a leading ```` ```json ```` fence and a trailing
```` ``` ```` fence, as in the round-trip scenario. -/
def wrapJsonFence (t : List Char) : List Char :=
  "```json\n".toList ++ t ++ "\n```".toList

/-! ## fetchWithRetry (src/reddit.ts lines 126-184)

The network is an oracle from attempt index to outcome; the loop is a
recursion on the remaining number of attempts, returning the result
together with the trace of fetch calls and sleeps. -/

def REQUEST_DELAY_MS : Nat := 1000

def BASE_URL : String := "https://www.reddit.com"

/-- The outcome of one `fetch` call: a response (with status, status text
and optional `Retry-After` header, and a parsed JSON body of the shape the
call site casts to), or a thrown network error (`some msg` for an `Error`
with that message, `none` for a non-`Error` throw). -/
inductive FetchOutcome (β : Type) where
  | resp (status : Nat) (statusText : String) (retryAfter : Option String) (body : β)
  | netErr (msg : Option String)

/-- The result type of `fetchWithRetry`. -/
inductive FWRes (β : Type) where
  | ok (data : β)
  | fail (error : String)
deriving Repr, DecidableEq

/-- One entry of the observable trace of `fetchWithRetry`. -/
inductive Ev where
  | fetchCall (url : String) (attempt : Nat)
  | sleepRetryAfter (seconds : Option Int)
  | sleepBackoff (ms : Nat)
deriving Repr, DecidableEq

/-- JS `parseInt(s, 10)`: skip leading whitespace, optional sign, read
leading decimal digits; `none` models `NaN`. -/
def jsParseInt (s : String) : Option Int :=
  let cs := s.toList.dropWhile isJsWs
  let (neg, cs) :=
    match cs with
    | '-' :: rest => (true, rest)
    | '+' :: rest => (false, rest)
    | _ => (false, cs)
  let digits := cs.takeWhile (fun c => c.isDigit)
  if digits = [] then none
  else
    let v : Int := digits.foldl (fun a c => a * 10 + (c.toNat - 48)) 0
    some (if neg then -v else v)

/-- `parseInt(response.headers.get('Retry-After') || '60', 10)`: a missing
or empty header falls back to `'60'`. -/
def retryAfterSeconds (header : Option String) : Option Int :=
  jsParseInt (match header with
    | none => "60"
    | some h => if h == "" then "60" else h)

/-- `response.ok`: status in the 2xx range. -/
def respOk (status : Nat) : Bool := 200 ≤ status ∧ status < 300

/-- The `for (let attempt = 0; attempt < retries; attempt++)` loop of
`fetchWithRetry`, recursing on the number of remaining iterations
(`attempt = retries - fuel`).  Note that the `continue` in the 429 branch
advances `attempt` just like the other retry paths. -/
def fetchLoop {β : Type} (url : String) (oracle : Nat → FetchOutcome β) (retries : Nat) :
    Nat → String → FWRes β × List Ev
  | 0, lastError =>
    (.fail ("Failed after " ++ toString retries ++ " attempts: " ++ lastError), [])
  | fuel + 1, lastError =>
    let attempt := retries - (fuel + 1)
    match oracle attempt with
    | .netErr msg =>
      let lastError := match msg with
        | some m => m
        | none => "Unknown network error"
      let (res, evs) := fetchLoop url oracle retries fuel lastError
      if attempt < retries - 1 then
        (res, .fetchCall url attempt :: .sleepBackoff (REQUEST_DELAY_MS * (attempt + 1)) :: evs)
      else
        (res, .fetchCall url attempt :: evs)
    | .resp status statusText retryAfter body =>
      if status = 429 then
        let (res, evs) := fetchLoop url oracle retries fuel lastError
        (res, .fetchCall url attempt :: .sleepRetryAfter (retryAfterSeconds retryAfter) :: evs)
      else if status = 403 then
        (.fail "Access forbidden. The subreddit may be private or banned.",
          [.fetchCall url attempt])
      else if status = 404 then
        (.fail "Subreddit not found.", [.fetchCall url attempt])
      else if ¬ respOk status then
        let lastError := "HTTP " ++ toString status ++ ": " ++ statusText
        let (res, evs) := fetchLoop url oracle retries fuel lastError
        (res, .fetchCall url attempt :: evs)
      else
        (.ok body, [.fetchCall url attempt])

/-- `fetchWithRetry` from `src/reddit.ts` (default `retries = 3`). -/
def fetchWithRetry {β : Type} (url : String) (oracle : Nat → FetchOutcome β)
    (retries : Nat := 3) : FWRes β × List Ev :=
  fetchLoop url oracle retries retries ""

/-! ## fetchPosts (src/reddit.ts lines 187-239) -/

/-- The four values of the `period` union in `FetchOptions`. -/
inductive Period where
  | d7
  | d30
  | d90
  | d180
deriving Repr, DecidableEq

/-- `periodToTimeFilter` from `src/reddit.ts` (the `default` branch is
unreachable for the `FetchOptions` period union). -/
def periodToTimeFilter : Period → String
  | .d7 => "week"
  | .d30 => "month"
  | .d90 => "year"
  | .d180 => "year"

/-- The number parsed by `parseInt(period.replace('d', ''), 10)`. -/
def periodDays : Period → Int
  | .d7 => 7
  | .d30 => 30
  | .d90 => 90
  | .d180 => 180

/-- `getPeriodCutoff` from `src/reddit.ts`, with `Date.now() / 1000`
passed in as `now`. -/
def getPeriodCutoff (now : Int) (period : Period) : Int :=
  now - periodDays period * 24 * 60 * 60

/-- `interface FetchOptions` from `src/reddit.ts`. -/
structure FetchOptions where
  period : Period
  limit : Nat
deriving Repr, DecidableEq

/-- The raw post fields read by `parsePost` (`selftext` is optional to
model a missing/falsy field). -/
structure PostRaw where
  id : String
  title : String
  selftext : Option String
  author : String
  score : Int
  num_comments : Int
  created_utc : Int
  url : String
  permalink : String
deriving Repr, DecidableEq

/-- A `children` element of a posts listing: `{kind, data}` with a
possibly missing `data`. -/
structure ListingChild where
  kind : String
  data : Option PostRaw
deriving Repr, DecidableEq

/-- The `listing.data` envelope of a posts page: `children` is `none` when
the field is missing/falsy, `after` is `none` for `null`. -/
structure Listing where
  children : Option (List ListingChild)
  after : Option String
deriving Repr, DecidableEq

/-- `parsePost` from `src/reddit.ts`. -/
def parsePost (d : PostRaw) : RedditPost :=
  { id := d.id,
    title := d.title,
    selftext := match d.selftext with
      | some s => s
      | none => "",
    author := d.author,
    score := d.score,
    numComments := d.num_comments,
    createdUtc := d.created_utc,
    url := d.url,
    permalink := "https://www.reddit.com" ++ d.permalink }

/-- The posts-page URL built inside the `fetchPosts` loop. -/
def postsUrl (subreddit timeFilter : String) (batchSize : Nat) (after : Option String) :
    String :=
  BASE_URL ++ "/r/" ++ subreddit ++ "/top.json?t=" ++ timeFilter
    ++ "&limit=" ++ toString batchSize
    ++ (match after with
        | none => ""
        | some a => "&after=" ++ a)

/-- The result type of `fetchPosts`. -/
inductive PostsRes where
  | ok (posts : List RedditPost)
  | fail (error : String)
deriving Repr

/-- The `while (posts.length < options.limit)` loop of `fetchPosts`.
`oracles pageIdx` is the attempt oracle of the `fetchWithRetry` call for
the `pageIdx`-th page; `fuel` bounds the number of iterations (`none`
models a run that never terminates). -/
def fetchPostsLoop (subreddit : String) (options : FetchOptions) (cutoff : Int)
    (timeFilter : String) (oracles : Nat → Nat → FetchOutcome Listing) :
    Nat → List RedditPost → Option String → Nat → Option PostsRes
  | 0, _, _, _ => none
  | fuel + 1, posts, after, pageIdx =>
    if posts.length < options.limit then
      let batchSize := min 100 (options.limit - posts.length)
      let url := postsUrl subreddit timeFilter batchSize after
      match (fetchWithRetry url (oracles pageIdx) 3).1 with
      | .fail e => some (.fail e)
      | .ok listing =>
        match listing.children with
        | none => some (.ok posts)
        | some children =>
          if children.length = 0 then some (.ok posts)
          else
            let newPosts := children.filterMap (fun c =>
              if c.kind == "t3" then
                match c.data with
                | some pd => if cutoff ≤ pd.created_utc then some (parsePost pd) else none
                | none => none
              else none)
            let posts := posts ++ newPosts
            match listing.after with
            | none => some (.ok posts)
            | some a =>
              if a == "" then some (.ok posts)
              else fetchPostsLoop subreddit options cutoff timeFilter oracles fuel posts
                (some a) (pageIdx + 1)
    else some (.ok posts)

/-- `fetchPosts` from `src/reddit.ts`: run the pagination loop and return
`posts.slice(0, options.limit)` on success. -/
def fetchPosts (subreddit : String) (options : FetchOptions) (now : Int)
    (oracles : Nat → Nat → FetchOutcome Listing) (fuel : Nat) : Option PostsRes :=
  let cutoff := getPeriodCutoff now options.period
  let timeFilter := periodToTimeFilter options.period
  (fetchPostsLoop subreddit options cutoff timeFilter oracles fuel [] none 0).map
    (fun r =>
      match r with
      | .ok posts => .ok (posts.take options.limit)
      | .fail e => .fail e)

/-! ## fetchPostComments and fetchRedditData (src/reddit.ts lines 242-332) -/

mutual
/-- The raw fields read by `parseComment`, mutually recursive with the
`children` elements of a replies listing.  `repliesChildren` is the value
reached through `data.replies?.data?.children` when it is an array; `none`
collapses the falsy/malformed cases (`replies` missing or `''`, `data`
missing, `children` not an array), all of which yield no replies. -/
inductive CommentRaw where
  | mk (id : String) (body : Option String) (author : String) (score : Int)
      (created_utc : Int) (parent_id : String)
      (repliesChildren : Option (List CommentChild)) : CommentRaw
inductive CommentChild where
  | mk (kind : String) (data : Option CommentRaw) : CommentChild
end

mutual
/-- `parseComment` from `src/reddit.ts` (and the `kind === 't1' &&
child.data` loop over a `children` array, shared with
`fetchPostComments`). -/
def parseComment (postId : String) : CommentRaw → RedditComment
  | .mk id body author score createdUtc parentId repliesChildren =>
    let replies := match repliesChildren with
      | some children => parseCommentChildren postId children
      | none => []
    .mk id (body.getD "") author score createdUtc postId parentId replies
def parseCommentChildren (postId : String) : List CommentChild → List RedditComment
  | [] => []
  | .mk kind data :: rest =>
    (if kind == "t1" then
      match data with
      | some d => [parseComment postId d]
      | none => []
    else []) ++ parseCommentChildren postId rest
end

/-- The comments URL built by `fetchPostComments`. -/
def commentsUrl (subreddit postId : String) : String :=
  BASE_URL ++ "/r/" ++ subreddit ++ "/comments/" ++ postId ++ ".json?limit=100&depth=3"

/-- The result type of `fetchPostComments`. -/
inductive CommentsRes where
  | ok (comments : List RedditComment)
  | fail (error : String)
deriving Repr

/-- The body of a comments response: an array of listing envelopes, each
reduced to its `data.children` when that is an array. -/
abbrev CommentsBody := List (Option (List CommentChild))

/-- `fetchPostComments` from `src/reddit.ts`: the second listing (when
present, with an array `children`) yields the parsed top-level `t1`
comments; every other shape yields no comments. -/
def fetchPostComments (subreddit postId : String)
    (oracle : Nat → FetchOutcome CommentsBody) : CommentsRes :=
  let url := commentsUrl subreddit postId
  match (fetchWithRetry url oracle 3).1 with
  | .fail e => .fail e
  | .ok listings =>
    match listings with
    | _ :: some children :: _ => .ok (parseCommentChildren postId children)
    | _ :: none :: _ => .ok []
    | _ => .ok []

/-- `FetchResult` from `src/reddit.ts`. -/
inductive FetchResult where
  | ok (data : RedditData)
  | fail (error : String)

/-- The comment list recorded for a post by `fetchRedditData`: the fetched
comments on success, the empty list on failure (`comments.set(post.id,
[])` in the `else` branch). -/
def commentsOrEmpty (r : CommentsRes) : List RedditComment :=
  match r with
  | .ok cs => cs
  | .fail _ => []

/-- `fetchRedditData` from `src/reddit.ts`: fetch the posts, then fetch
each post's comments, recording an empty list when a comment fetch fails.
`commentOracles postId` is the attempt oracle of the `fetchWithRetry` call
for that post's comments request. -/
def fetchRedditData (subreddit : String) (options : FetchOptions) (now : Int)
    (pageOracles : Nat → Nat → FetchOutcome Listing)
    (commentOracles : String → Nat → FetchOutcome CommentsBody)
    (fuel : Nat) : Option FetchResult :=
  match fetchPosts subreddit options now pageOracles fuel with
  | none => none
  | some (.fail e) => some (.fail e)
  | some (.ok posts) =>
    let comments := posts.foldl (fun m post =>
      mapSet m post.id
        (commentsOrEmpty (fetchPostComments subreddit post.id (commentOracles post.id))))
      []
    some (.ok ⟨subreddit, posts, comments⟩)

/-! ## Sticky OAuth endpoint escalation

Modelled from the spec: the OAuth-fallback variant of `fetchWithRetry`
(the `TokenProvider`/`setTokenProvider` sticky-OAuth-mode logic referenced
by `src/reddit.test.ts` and `docs/reddit-parsing-for-products-uvi.4.md`)
is not present in the repository sources; the definitions in this section
follow the spec's §4.2 "Endpoint escalation" wording instead of source
code. -/

/-- Modelled from the spec: the anonymous base host. -/
def ANON_HOST : String := "https://www.reddit.com"

/-- Modelled from the spec: the authenticated base host. -/
def AUTH_HOST : String := "https://oauth.reddit.com"

/-- Modelled from the spec: the per-operation sticky state — whether the
client has switched to the authenticated endpoint, and the token it
obtained when it did. -/
structure OpState where
  oauthMode : Bool
  token : Option String
deriving Repr, DecidableEq

/-- Modelled from the spec: one observable HTTP request of a fetch
operation — target host, path, and the `Authorization` header value. -/
structure ReqEv where
  host : String
  path : String
  authorization : Option String
deriving Repr, DecidableEq

/-- Modelled from the spec: the host targeted in the current state. -/
def specHost (st : OpState) : String := if st.oauthMode then AUTH_HOST else ANON_HOST

/-- Modelled from the spec: the `Authorization: Bearer <token>` header,
present exactly in authenticated mode. -/
def specAuthHeader (st : OpState) : Option String :=
  if st.oauthMode then st.token.map (fun t => "Bearer " ++ t) else none

/-- Modelled from the spec: the request event issued in the current
state. -/
def specFetchOnce (path : String) (st : OpState) : ReqEv :=
  ⟨specHost st, path, specAuthHeader st⟩

/-- Modelled from the spec: one request of a fetch operation, with the
§4.2 escalation rule.  `oracle i` is the HTTP status of the `i`-th attempt
of this request.  On a 403 in anonymous mode the client asks the
configured credential provider for a token; if one is returned it switches
to the authenticated host for the retry (and, through the returned state,
for the rest of the operation); otherwise the 403 is terminal. -/
def specRequest (provider : Option (Unit → Option String)) (path : String)
    (oracle : Nat → Nat) (st : OpState) : FWRes Unit × OpState × List ReqEv :=
  let ev0 := specFetchOnce path st
  let s0 := oracle 0
  if respOk s0 then (.ok (), st, [ev0])
  else if s0 = 403 ∧ st.oauthMode = false then
    match provider with
    | some p =>
      match p () with
      | some t =>
        let st' : OpState := ⟨true, some t⟩
        let ev1 := specFetchOnce path st'
        if respOk (oracle 1) then (.ok (), st', [ev0, ev1])
        else (.fail "Access forbidden. The subreddit may be private or banned.", st',
          [ev0, ev1])
      | none =>
        (.fail "Access forbidden. The subreddit may be private or banned.", st, [ev0])
    | none =>
      (.fail "Access forbidden. The subreddit may be private or banned.", st, [ev0])
  else if s0 = 403 then
    (.fail "Access forbidden. The subreddit may be private or banned.", st, [ev0])
  else (.fail ("HTTP " ++ toString s0), st, [ev0])

/-- Modelled from the spec: a fetch operation is a sequence of requests
(path plus attempt oracle) sharing one sticky state, threaded left to
right. -/
def runOperation (provider : Option (Unit → Option String)) :
    List (String × (Nat → Nat)) → OpState → OpState × List ReqEv
  | [], st => (st, [])
  | (path, oracle) :: rest, st =>
    let r := specRequest provider path oracle st
    let f := runOperation provider rest r.2.1
    (f.1, r.2.2 ++ f.2)

/-! ## Theorems -/

/-- C10: `mergeAnalysisResults` applied to a single-element list returns
the result itself unchanged — no deduplication, no frequency upgrade, no
sorting, and none of the 10/10/10/5 caps are applied. -/
theorem c10_merge_singleton_identity (r : AnalysisResult) :
    mergeAnalysisResults [r] = r := rfl

/-- C8: when every attempt throws a transient network error,
`fetchWithRetry` makes exactly 3 attempts with linearly increasing delay
(1000 ms, then 2000 ms) between them, and fails with a message carrying
the retry count and the last underlying error message. -/
theorem c8_transient_failure_exhausts_budget {β : Type} (url : String)
    (oracle : Nat → FetchOutcome β) (m : Nat → String)
    (h : ∀ i, i < 3 → oracle i = .netErr (some (m i))) :
    fetchWithRetry url oracle 3 =
      (.fail ("Failed after 3 attempts: " ++ m 2),
       [.fetchCall url 0, .sleepBackoff (REQUEST_DELAY_MS * 1),
        .fetchCall url 1, .sleepBackoff (REQUEST_DELAY_MS * 2),
        .fetchCall url 2]) := by
  have h0 := h 0 (by omega)
  have h1 := h 1 (by omega)
  have h2 := h 2 (by omega)
  simp only [fetchWithRetry, fetchLoop, h0, h1, h2, REQUEST_DELAY_MS]
  norm_num
  rfl

/-- Witness for C8 at a concrete oracle that always throws
`Error('Persistent network error')`. -/
theorem c8_transient_failure_exhausts_budget_witness :
    fetchWithRetry "https://www.reddit.com/r/test/top.json?t=week&limit=1"
      (fun _ => (FetchOutcome.netErr (β := Unit) (some "Persistent network error"))) 3 =
      (.fail ("Failed after 3 attempts: " ++ "Persistent network error"),
       [.fetchCall "https://www.reddit.com/r/test/top.json?t=week&limit=1" 0,
        .sleepBackoff (REQUEST_DELAY_MS * 1),
        .fetchCall "https://www.reddit.com/r/test/top.json?t=week&limit=1" 1,
        .sleepBackoff (REQUEST_DELAY_MS * 2),
        .fetchCall "https://www.reddit.com/r/test/top.json?t=week&limit=1" 2]) :=
  c8_transient_failure_exhausts_budget _ _ (fun _ => "Persistent network error")
    (fun _ _ => rfl)

/-- C2 counterexample: a request that keeps receiving HTTP 429 is NOT
retried an unbounded number of times — the `continue` in the 429 branch
advances the `for` loop counter, so each 429 consumes one of the 3
attempts and the fetch is surfaced to the caller as a failure. -/
theorem c2_rate_limit_counterexample :
    fetchWithRetry "https://www.reddit.com/r/test/top.json?t=week&limit=1"
      (fun _ => (FetchOutcome.resp (β := Unit) 429 "Too Many Requests" none ())) 3 =
      (.fail "Failed after 3 attempts: ",
       [.fetchCall "https://www.reddit.com/r/test/top.json?t=week&limit=1" 0,
        .sleepRetryAfter (some 60),
        .fetchCall "https://www.reddit.com/r/test/top.json?t=week&limit=1" 1,
        .sleepRetryAfter (some 60),
        .fetchCall "https://www.reddit.com/r/test/top.json?t=week&limit=1" 2,
        .sleepRetryAfter (some 60)]) := by
  rfl

/-- C2 (amended): on HTTP 429 the client sleeps for the server-supplied
`Retry-After` duration (60 seconds when the header is absent) before
retrying the same request, but each 429 response consumes one attempt of
the 3-attempt budget, and three consecutive 429s surface a failure to the
caller (with an empty last-error text). -/
theorem c2_rate_limit_consumes_budget {β : Type} (url : String)
    (oracle : Nat → FetchOutcome β) (st : Nat → String) (ra : Nat → Option String)
    (b : Nat → β) (h : ∀ i, i < 3 → oracle i = .resp 429 (st i) (ra i) (b i)) :
    fetchWithRetry url oracle 3 =
      (.fail "Failed after 3 attempts: ",
       [.fetchCall url 0, .sleepRetryAfter (retryAfterSeconds (ra 0)),
        .fetchCall url 1, .sleepRetryAfter (retryAfterSeconds (ra 1)),
        .fetchCall url 2, .sleepRetryAfter (retryAfterSeconds (ra 2))]) ∧
    retryAfterSeconds none = some 60 := by
  have h0 := h 0 (by omega)
  have h1 := h 1 (by omega)
  have h2 := h 2 (by omega)
  refine ⟨?_, rfl⟩
  simp only [fetchWithRetry, fetchLoop, h0, h1, h2]
  norm_num
  rfl

/-- Witness for the amended C2: three concrete 429 responses, the first
with a `Retry-After: 17` header, the others without. -/
theorem c2_rate_limit_consumes_budget_witness :
    fetchWithRetry "https://www.reddit.com/r/test/top.json?t=week&limit=1"
      (fun i => (FetchOutcome.resp (β := Unit) 429 "Too Many Requests"
        (if i = 0 then some "17" else none) ())) 3 =
      (.fail "Failed after 3 attempts: ",
       [.fetchCall "https://www.reddit.com/r/test/top.json?t=week&limit=1" 0,
        .sleepRetryAfter (retryAfterSeconds (some "17")),
        .fetchCall "https://www.reddit.com/r/test/top.json?t=week&limit=1" 1,
        .sleepRetryAfter (retryAfterSeconds none),
        .fetchCall "https://www.reddit.com/r/test/top.json?t=week&limit=1" 2,
        .sleepRetryAfter (retryAfterSeconds none)]) ∧
    retryAfterSeconds none = some 60 :=
  c2_rate_limit_consumes_budget _ _ (fun _ => "Too Many Requests")
    (fun i => if i = 0 then some "17" else none) (fun _ => ()) (fun i _ => by
      cases i with
      | zero => rfl
      | succ n => rfl)

/-- In authenticated mode a request never changes the sticky state and
every request it issues targets the authenticated host. -/
lemma specRequest_sticky (provider : Option (Unit → Option String)) (path : String)
    (oracle : Nat → Nat) (st : OpState) (h : st.oauthMode = true) :
    (specRequest provider path oracle st).2.1 = st ∧
    ∀ e ∈ (specRequest provider path oracle st).2.2, e.host = AUTH_HOST := by
  unfold specRequest specFetchOnce specHost
  simp only [h]
  split
  · simp
  · split
    · simp_all
    · split
      · simp
      · simp

/-- Once the sticky state is authenticated, every request of the rest of
the operation targets the authenticated host, and the final state is still
authenticated. -/
lemma runOperation_sticky (provider : Option (Unit → Option String))
    (reqs : List (String × (Nat → Nat))) (st : OpState) (h : st.oauthMode = true) :
    (∀ e ∈ (runOperation provider reqs st).2, e.host = AUTH_HOST) ∧
    (runOperation provider reqs st).1.oauthMode = true := by
  induction reqs generalizing st with
  | nil => simpa [runOperation] using h
  | cons req rest ih =>
    obtain ⟨path, oracle⟩ := req
    obtain ⟨hst, hevs⟩ := specRequest_sticky provider path oracle st h
    have h' : (specRequest provider path oracle st).2.1.oauthMode = true := by
      rw [hst]; exact h
    obtain ⟨ihall, ihmode⟩ := ih _ h'
    refine ⟨?_, ?_⟩
    · intro e he
      simp only [runOperation, List.mem_append] at he
      rcases he with he | he
      · exact hevs e he
      · exact ihall e he
    · simpa [runOperation] using ihmode

/-- C1 (spec-modelled): when the anonymous request of a fetch operation
receives HTTP 403 and the configured credential provider returns a token,
the client retries that request against the authenticated base host with
the bearer token, the sticky state switches to authenticated, and every
subsequent request of the operation targets the authenticated host — the
switch never reverts within the operation. -/
theorem c1_sticky_oauth_escalation (path : String) (p : Unit → Option String) (t : String)
    (oracle : Nat → Nat) (rest : List (String × (Nat → Nat)))
    (hp : p () = some t) (h403 : oracle 0 = 403) :
    (specRequest (some p) path oracle ⟨false, none⟩).2.2 =
      [⟨ANON_HOST, path, none⟩, ⟨AUTH_HOST, path, some ("Bearer " ++ t)⟩] ∧
    (specRequest (some p) path oracle ⟨false, none⟩).2.1 = ⟨true, some t⟩ ∧
    (∀ e ∈ (runOperation (some p) rest ⟨true, some t⟩).2, e.host = AUTH_HOST) ∧
    (runOperation (some p) rest ⟨true, some t⟩).1.oauthMode = true := by
  have hsr : (specRequest (some p) path oracle ⟨false, none⟩).2.2 =
      [⟨ANON_HOST, path, none⟩, ⟨AUTH_HOST, path, some ("Bearer " ++ t)⟩] ∧
      (specRequest (some p) path oracle ⟨false, none⟩).2.1 = ⟨true, some t⟩ := by
    unfold specRequest specFetchOnce specHost specAuthHeader
    simp only [h403, hp]
    norm_num [respOk]
    constructor <;> (split <;> rfl)
  obtain ⟨h1, h2⟩ := hsr
  obtain ⟨h3, h4⟩ := runOperation_sticky (some p) rest ⟨true, some t⟩ rfl
  exact ⟨h1, h2, h3, h4⟩

/-- Witness for C1: a concrete operation whose first request is answered
403 anonymously and 200 authenticated, with one follow-up request. -/
theorem c1_sticky_oauth_escalation_witness :
    (specRequest (some (fun _ => some "tok-1")) "/r/private/top.json"
      (fun i => if i = 0 then 403 else 200) ⟨false, none⟩).2.2 =
      [⟨ANON_HOST, "/r/private/top.json", none⟩,
       ⟨AUTH_HOST, "/r/private/top.json", some ("Bearer " ++ "tok-1")⟩] ∧
    (specRequest (some (fun _ => some "tok-1")) "/r/private/top.json"
      (fun i => if i = 0 then 403 else 200) ⟨false, none⟩).2.1 = ⟨true, some "tok-1"⟩ ∧
    (∀ e ∈ (runOperation (some (fun _ => some "tok-1"))
        [("/r/private/comments/p1.json", fun _ => 200)] ⟨true, some "tok-1"⟩).2,
      e.host = AUTH_HOST) ∧
    (runOperation (some (fun _ => some "tok-1"))
      [("/r/private/comments/p1.json", fun _ => 200)] ⟨true, some "tok-1"⟩).1.oauthMode
      = true :=
  c1_sticky_oauth_escalation "/r/private/top.json" (fun _ => some "tok-1") "tok-1"
    (fun i => if i = 0 then 403 else 200)
    [("/r/private/comments/p1.json", fun _ => 200)] rfl rfl

/-- `mapGet` after `mapSet` at the same key returns the new value. -/
lemma mapGet_mapSet_self (m : CommentsMap) (k : String) (v : List RedditComment) :
    mapGet (mapSet m k v) k = some v := by
  induction m with
  | nil => simp [mapSet, mapGet]
  | cons e rest ih =>
    by_cases he : e.1 == k
    · simp [mapSet, mapGet, he]
    · simp [mapSet, mapGet, he, ih]

/-- `mapGet` after `mapSet` at a different key is unchanged. -/
lemma mapGet_mapSet_other (m : CommentsMap) (k : String) (v : List RedditComment)
    (k' : String) (h : k' ≠ k) : mapGet (mapSet m k v) k' = mapGet m k' := by
  have hkk : ¬ (k = k') := fun he => h he.symm
  induction m with
  | nil => simp [mapSet, mapGet, hkk]
  | cons e rest ih =>
    by_cases he : e.1 == k
    · have he' : e.1 = k := by simpa using he
      simp [mapSet, mapGet, he, he', hkk]
    · by_cases he'' : e.1 == k'
      · simp [mapSet, mapGet, he, he'']
      · simp [mapSet, mapGet, he, he'', ih]

/-- A key already mapped to its final value keeps it through the
comments-collection fold of `fetchRedditData` (entries are functions of
the key alone, so overwrites rewrite the same value). -/
lemma foldl_mapSet_preserve (g : String → List RedditComment) (posts : List RedditPost) :
    ∀ (m0 : CommentsMap) (k : String), mapGet m0 k = some (g k) →
      mapGet (posts.foldl (fun m post => mapSet m post.id (g post.id)) m0) k = some (g k) := by
  induction posts with
  | nil => intro m0 k h; simpa using h
  | cons post rest ih =>
    intro m0 k h
    simp only [List.foldl_cons]
    apply ih
    by_cases hk : k = post.id
    · subst hk
      exact mapGet_mapSet_self m0 post.id (g post.id)
    · rw [mapGet_mapSet_other m0 post.id (g post.id) k hk]
      exact h

/-- Every post processed by the comments-collection fold ends up with the
entry determined by its id. -/
lemma foldl_mapSet_get (g : String → List RedditComment) (posts : List RedditPost) :
    ∀ (m0 : CommentsMap), ∀ p ∈ posts,
      mapGet (posts.foldl (fun m post => mapSet m post.id (g post.id)) m0) p.id =
        some (g p.id) := by
  induction posts with
  | nil => intro m0 p hp; simp at hp
  | cons post rest ih =>
    intro m0 p hp
    simp only [List.foldl_cons]
    rcases List.mem_cons.mp hp with hp | hp
    · subst hp
      exact foldl_mapSet_preserve g rest _ p.id (mapGet_mapSet_self m0 p.id (g p.id))
    · exact ih _ p hp

/-- Every post admitted by the in-page filter of `fetchPostsLoop` carries
a timestamp at or after the cutoff. -/
lemma newPosts_cutoff {cutoff : Int} {children : List ListingChild} {p : RedditPost}
    (hp : p ∈ children.filterMap (fun c =>
      if c.kind == "t3" then
        match c.data with
        | some pd => if cutoff ≤ pd.created_utc then some (parsePost pd) else none
        | none => none
      else none)) :
    cutoff ≤ p.createdUtc := by
  rw [List.mem_filterMap] at hp
  obtain ⟨c, -, hf⟩ := hp
  split at hf
  · split at hf
    · split at hf
      · obtain rfl : parsePost _ = p := by simpa using hf
        assumption
      · simp at hf
    · simp at hf
  · simp at hf

/-- Loop invariant of `fetchPostsLoop`: if every accumulated post is at or
after the cutoff, so is every post of a successful result. -/
lemma fetchPostsLoop_cutoff (subreddit : String) (options : FetchOptions) (cutoff : Int)
    (timeFilter : String) (oracles : Nat → Nat → FetchOutcome Listing) :
    ∀ (fuel : Nat) (acc : List RedditPost) (after : Option String) (pageIdx : Nat)
      (ps : List RedditPost),
      (∀ p ∈ acc, cutoff ≤ p.createdUtc) →
      fetchPostsLoop subreddit options cutoff timeFilter oracles fuel acc after pageIdx =
        some (.ok ps) →
      ∀ p ∈ ps, cutoff ≤ p.createdUtc := by
  intro fuel
  induction fuel with
  | zero => intro acc after pageIdx ps hacc h; simp [fetchPostsLoop] at h
  | succ n ih =>
    intro acc after pageIdx ps hacc h
    unfold fetchPostsLoop at h
    dsimp only at h
    split at h
    · split at h
      · simp at h
      · split at h
        · obtain rfl : acc = ps := by simpa using h
          exact hacc
        · split at h
          · obtain rfl : acc = ps := by simpa using h
            exact hacc
          · split at h
            · simp only [Option.some.injEq, PostsRes.ok.injEq] at h
              subst h
              intro p hp
              rcases List.mem_append.mp hp with hp | hp
              · exact hacc p hp
              · exact newPosts_cutoff hp
            · split at h
              · simp only [Option.some.injEq, PostsRes.ok.injEq] at h
                subst h
                intro p hp
                rcases List.mem_append.mp hp with hp | hp
                · exact hacc p hp
                · exact newPosts_cutoff hp
              · refine ih _ _ _ ps ?_ h
                intro p hp
                rcases List.mem_append.mp hp with hp | hp
                · exact hacc p hp
                · exact newPosts_cutoff hp
    · obtain rfl : acc = ps := by simpa using h
      exact hacc

/-- A successful `fetchPosts` returns at most `limit` posts, all at or
after the period cutoff. -/
lemma fetchPosts_ok (subreddit : String) (options : FetchOptions) (now : Int)
    (oracles : Nat → Nat → FetchOutcome Listing) (fuel : Nat) (ps : List RedditPost)
    (h : fetchPosts subreddit options now oracles fuel = some (.ok ps)) :
    ps.length ≤ options.limit ∧
    ∀ p ∈ ps, getPeriodCutoff now options.period ≤ p.createdUtc := by
  unfold fetchPosts at h
  dsimp only at h
  cases hl : fetchPostsLoop subreddit options (getPeriodCutoff now options.period)
      (periodToTimeFilter options.period) oracles fuel [] none 0 with
  | none => rw [hl] at h; simp at h
  | some r =>
    rw [hl] at h
    cases r with
    | fail e => simp at h
    | ok posts0 =>
      obtain rfl : posts0.take options.limit = ps := by simpa using h
      constructor
      · simp [Nat.min_le_left, Nat.min_le_right]
      · intro p hp
        exact fetchPostsLoop_cutoff subreddit options _ _ oracles fuel [] none 0 posts0
          (by simp) hl p (List.take_subset _ _ hp)

/-- C3: for all valid options, a successful `fetchRedditData` returns at
most `limit` posts, and every returned post's `createdUtc` is at or after
the cutoff `now - days(period) * 24 * 60 * 60`. -/
theorem c3_limit_and_cutoff (subreddit : String) (options : FetchOptions) (now : Int)
    (pageOracles : Nat → Nat → FetchOutcome Listing)
    (commentOracles : String → Nat → FetchOutcome CommentsBody)
    (fuel : Nat) (d : RedditData)
    (h : fetchRedditData subreddit options now pageOracles commentOracles fuel =
      some (.ok d)) :
    d.posts.length ≤ options.limit ∧
    ∀ p ∈ d.posts, getPeriodCutoff now options.period ≤ p.createdUtc := by
  unfold fetchRedditData at h
  cases hf : fetchPosts subreddit options now pageOracles fuel with
  | none => rw [hf] at h; simp at h
  | some r =>
    rw [hf] at h
    cases r with
    | fail e => simp at h
    | ok posts =>
      simp only [Option.some.injEq, FetchResult.ok.injEq] at h
      have hd : d.posts = posts := by rw [← h]
      rw [hd]
      exact fetchPosts_ok subreddit options now pageOracles fuel posts hf

/-- C9: whenever the posts fetch succeeds, the whole `fetchRedditData`
succeeds for EVERY comment oracle (a per-post comment-fetch failure never
fails the overall fetch), the comments map has an entry for every returned
post's id, and a post whose comment fetch failed is mapped to the empty
list, never absent. -/
theorem c9_comments_map_total (subreddit : String) (options : FetchOptions) (now : Int)
    (pageOracles : Nat → Nat → FetchOutcome Listing)
    (commentOracles : String → Nat → FetchOutcome CommentsBody)
    (fuel : Nat) (ps : List RedditPost)
    (h : fetchPosts subreddit options now pageOracles fuel = some (.ok ps)) :
    ∃ d, fetchRedditData subreddit options now pageOracles commentOracles fuel =
        some (.ok d) ∧
      d.posts = ps ∧
      (∀ p ∈ d.posts, mapGet d.comments p.id =
        some (commentsOrEmpty (fetchPostComments subreddit p.id (commentOracles p.id)))) ∧
      (∀ p ∈ d.posts, ∀ e,
        fetchPostComments subreddit p.id (commentOracles p.id) = .fail e →
        mapGet d.comments p.id = some []) := by
  refine ⟨⟨subreddit, ps, ps.foldl (fun m post =>
    mapSet m post.id
      (commentsOrEmpty (fetchPostComments subreddit post.id (commentOracles post.id))))
    []⟩, ?_, rfl, ?_, ?_⟩
  · unfold fetchRedditData
    rw [h]
  · intro p hp
    exact foldl_mapSet_get
      (fun pid => commentsOrEmpty (fetchPostComments subreddit pid (commentOracles pid)))
      ps [] p hp
  · intro p hp e he
    have h2 := foldl_mapSet_get
      (fun pid => commentsOrEmpty (fetchPostComments subreddit pid (commentOracles pid)))
      ps [] p hp
    exact h2.trans (by simp [he, commentsOrEmpty])

/-- Concrete raw post for witnesses (1 day inside the 7-day window of
`now = 1000000000`). -/
def examplePostRaw1 : PostRaw :=
  ⟨"post1", "Test Post 1", some "Test content", "testuser", 100, 5, 999400000,
   "https://reddit.com/r/test/post1", "/r/test/comments/post1/test"⟩

/-- Concrete raw post for witnesses (missing `selftext`). -/
def examplePostRaw2 : PostRaw :=
  ⟨"post2", "Test Post 2", none, "testuser", 50, 5, 999500000,
   "https://reddit.com/r/test/post2", "/r/test/comments/post2/test"⟩

/-- Concrete page oracle: a single page holding both posts, no
continuation cursor. -/
def examplePageOracle : Nat → Nat → FetchOutcome Listing :=
  fun _ _ => .resp 200 "OK" none
    ⟨some [⟨"t3", some examplePostRaw1⟩, ⟨"t3", some examplePostRaw2⟩], none⟩

/-- Concrete comment oracle: post1's comments fetch succeeds with one
comment, post2's throws a network error on every attempt. -/
def exampleCommentOracle : String → Nat → FetchOutcome CommentsBody :=
  fun pid _ =>
    if pid = "post1" then
      .resp 200 "OK" none
        [none,
         some [.mk "t1"
           (some (.mk "c1" (some "Great post!") "commenter" 10 999400100 "t3_post1" none))]]
    else .netErr (some "comment boom")

/-- The parsed form of `examplePostRaw1`. -/
def examplePost1 : RedditPost :=
  ⟨"post1", "Test Post 1", "Test content", "testuser", 100, 5, 999400000,
   "https://reddit.com/r/test/post1", "https://www.reddit.com/r/test/comments/post1/test"⟩

/-- The parsed form of `examplePostRaw2`. -/
def examplePost2 : RedditPost :=
  ⟨"post2", "Test Post 2", "", "testuser", 50, 5, 999500000,
   "https://reddit.com/r/test/post2", "https://www.reddit.com/r/test/comments/post2/test"⟩

/-- The parsed form of post1's single comment. -/
def exampleComment1 : RedditComment :=
  .mk "c1" "Great post!" "commenter" 10 999400100 "post1" "t3_post1" []

/-- The corpus produced by `fetchRedditData` on the example oracles. -/
def exampleData : RedditData :=
  ⟨"test", [examplePost1, examplePost2], [("post1", [exampleComment1]), ("post2", [])]⟩

/-- Witness for C3 on the concrete two-post scenario. -/
theorem c3_limit_and_cutoff_witness :
    exampleData.posts.length ≤ (⟨Period.d7, 2⟩ : FetchOptions).limit ∧
    ∀ p ∈ exampleData.posts,
      getPeriodCutoff 1000000000 (⟨Period.d7, 2⟩ : FetchOptions).period ≤ p.createdUtc :=
  c3_limit_and_cutoff "test" ⟨.d7, 2⟩ 1000000000 examplePageOracle exampleCommentOracle 3
    exampleData rfl

/-- Witness for C9 on the concrete scenario where post2's comment fetch
fails on every attempt. -/
theorem c9_comments_map_total_witness :
    ∃ d, fetchRedditData "test" ⟨Period.d7, 2⟩ 1000000000 examplePageOracle
        exampleCommentOracle 3 = some (.ok d) ∧
      d.posts = [examplePost1, examplePost2] ∧
      (∀ p ∈ d.posts, mapGet d.comments p.id =
        some (commentsOrEmpty (fetchPostComments "test" p.id (exampleCommentOracle p.id)))) ∧
      (∀ p ∈ d.posts, ∀ e,
        fetchPostComments "test" p.id (exampleCommentOracle p.id) = .fail e →
        mapGet d.comments p.id = some []) :=
  c9_comments_map_total "test" ⟨.d7, 2⟩ 1000000000 examplePageOracle exampleCommentOracle 3
    [examplePost1, examplePost2] rfl

/-- The comments the corpus associates with a post id (`comments.get(id)
|| []` — a missing entry is equivalent to an empty list everywhere the
corpus is consumed). -/
def originalComments (d : RedditData) (pid : String) : List RedditComment :=
  (mapGet d.comments pid).getD []

/-- One chunking step appends exactly the processed post to the
concatenation of sealed chunks plus the open chunk. -/
lemma chunkStep_concat (d : RedditData) (st : ChunkState) (p : RedditPost) :
    ((chunkStep d st p).chunks.map (·.posts)).flatten ++ (chunkStep d st p).currentPosts =
    ((st.chunks.map (·.posts)).flatten ++ st.currentPosts) ++ [p] := by
  unfold chunkStep
  dsimp only
  split <;> simp

/-- Chunking-fold invariant: sealed chunks plus the open chunk always
concatenate to the processed prefix. -/
lemma chunk_fold_concat (d : RedditData) (l : List RedditPost) :
    ∀ st : ChunkState,
      ((l.foldl (chunkStep d) st).chunks.map (·.posts)).flatten
        ++ (l.foldl (chunkStep d) st).currentPosts =
      ((st.chunks.map (·.posts)).flatten ++ st.currentPosts) ++ l := by
  induction l with
  | nil => intro st; simp
  | cons p rest ih =>
    intro st
    rw [List.foldl_cons, ih, chunkStep_concat]
    simp

/-- The open chunk is never empty after a chunking step. -/
lemma chunkStep_current_ne (d : RedditData) (st : ChunkState) (p : RedditPost) :
    (chunkStep d st p).currentPosts ≠ [] := by
  unfold chunkStep
  dsimp only
  split <;> simp

/-- A chunking step seals only non-empty chunks. -/
lemma chunkStep_nonempty (d : RedditData) (st : ChunkState) (p : RedditPost)
    (h : ∀ c ∈ st.chunks, c.posts ≠ []) :
    ∀ c ∈ (chunkStep d st p).chunks, c.posts ≠ [] := by
  unfold chunkStep
  dsimp only
  split
  · rename_i hcond
    intro c hc
    rcases List.mem_append.mp hc with hc | hc
    · exact h c hc
    · obtain rfl : c = ⟨d.subreddit, st.currentPosts, st.currentComments⟩ := by
        simpa using hc
      exact hcond.2
  · exact h

/-- Chunking-fold invariant: all sealed chunks hold at least one post. -/
lemma chunk_fold_nonempty (d : RedditData) (l : List RedditPost) :
    ∀ st : ChunkState, (∀ c ∈ st.chunks, c.posts ≠ []) →
      ∀ c ∈ (l.foldl (chunkStep d) st).chunks, c.posts ≠ [] := by
  induction l with
  | nil => intro st h; simpa using h
  | cons p rest ih =>
    intro st h
    rw [List.foldl_cons]
    exact ih _ (chunkStep_nonempty d st p h)

/-- A chunking step preserves the per-chunk comments invariant: every
post of every sealed chunk, and of the open chunk, is mapped to its
original comments. -/
lemma chunkStep_comments (d : RedditData) (st : ChunkState) (p : RedditPost)
    (h1 : ∀ c ∈ st.chunks, ∀ q ∈ c.posts,
      mapGet c.comments q.id = some (originalComments d q.id))
    (h2 : ∀ q ∈ st.currentPosts,
      mapGet st.currentComments q.id = some (originalComments d q.id)) :
    (∀ c ∈ (chunkStep d st p).chunks, ∀ q ∈ c.posts,
      mapGet c.comments q.id = some (originalComments d q.id)) ∧
    (∀ q ∈ (chunkStep d st p).currentPosts,
      mapGet (chunkStep d st p).currentComments q.id = some (originalComments d q.id)) := by
  unfold chunkStep
  dsimp only
  split
  · constructor
    · intro c hc
      rcases List.mem_append.mp hc with hc | hc
      · exact h1 c hc
      · obtain rfl : c = ⟨d.subreddit, st.currentPosts, st.currentComments⟩ := by
          simpa using hc
        exact h2
    · intro q hq
      obtain rfl : q = p := by simpa using hq
      simpa [originalComments] using mapGet_mapSet_self [] q.id (originalComments d q.id)
  · constructor
    · exact h1
    · intro q hq
      rcases List.mem_append.mp hq with hq | hq
      · by_cases hid : q.id = p.id
        · rw [hid]
          simpa [originalComments] using
            mapGet_mapSet_self st.currentComments p.id (originalComments d p.id)
        · rw [mapGet_mapSet_other st.currentComments p.id _ q.id hid]
          exact h2 q hq
      · obtain rfl : q = p := by simpa using hq
        simpa [originalComments] using
          mapGet_mapSet_self st.currentComments q.id (originalComments d q.id)

/-- Chunking-fold invariant for comments. -/
lemma chunk_fold_comments (d : RedditData) (l : List RedditPost) :
    ∀ st : ChunkState,
      (∀ c ∈ st.chunks, ∀ q ∈ c.posts,
        mapGet c.comments q.id = some (originalComments d q.id)) →
      (∀ q ∈ st.currentPosts,
        mapGet st.currentComments q.id = some (originalComments d q.id)) →
      (∀ c ∈ (l.foldl (chunkStep d) st).chunks, ∀ q ∈ c.posts,
        mapGet c.comments q.id = some (originalComments d q.id)) ∧
      (∀ q ∈ (l.foldl (chunkStep d) st).currentPosts,
        mapGet (l.foldl (chunkStep d) st).currentComments q.id =
          some (originalComments d q.id)) := by
  induction l with
  | nil => intro st h1 h2; exact ⟨h1, h2⟩
  | cons p rest ih =>
    intro st h1 h2
    rw [List.foldl_cons]
    obtain ⟨h1', h2'⟩ := chunkStep_comments d st p h1 h2
    exact ih _ h1' h2'

/-- C4: concatenating the posts of the chunks returned by `chunkData`, in
chunk order, yields exactly the original post list; no returned chunk has
an empty post list unless the corpus itself has no posts; and every chunk
associates each of its posts with that post's original comments. -/
theorem c4_chunk_partition (d : RedditData) :
    ((chunkData d).map (·.posts)).flatten = d.posts ∧
    (∀ c ∈ chunkData d, c.posts = [] → d.posts = []) ∧
    (∀ c ∈ chunkData d, ∀ p ∈ c.posts,
      (mapGet c.comments p.id).getD [] = originalComments d p.id) := by
  unfold chunkData
  split
  · refine ⟨by simp, ?_, ?_⟩
    · intro c hc
      obtain rfl : c = d := by simpa using hc
      exact id
    · intro c hc
      obtain rfl : c = d := by simpa using hc
      intro p _
      rfl
  · have hconcat := chunk_fold_concat d d.posts ⟨[], [], [], 0⟩
    have hne := chunk_fold_nonempty d d.posts ⟨[], [], [], 0⟩ (by simp)
    have hcom := chunk_fold_comments d d.posts ⟨[], [], [], 0⟩ (by simp) (by simp)
    dsimp only
    split
    · rename_i hcur
      refine ⟨?_, ?_, ?_⟩
      · simpa using hconcat
      · intro c hc
        rcases List.mem_append.mp hc with hc | hc
        · exact fun he => absurd he (hne c hc)
        · obtain rfl : c = _ := by simpa using hc
          exact fun he => absurd he hcur
      · intro c hc p hp
        rcases List.mem_append.mp hc with hc | hc
        · rw [hcom.1 c hc p hp]
          rfl
        · obtain rfl : c = _ := by simpa using hc
          dsimp only at hp ⊢
          rw [hcom.2 p hp]
          rfl
    · rename_i hcur
      rw [not_not] at hcur
      refine ⟨?_, ?_, ?_⟩
      · have := hconcat
        rw [hcur] at this
        simpa using this
      · intro c hc
        exact fun he => absurd he (hne c hc)
      · intro c hc p hp
        rw [hcom.1 c hc p hp]
        rfl

/-! ## Characterization of the dedup-and-merge folds of
`mergeAnalysisResults`

`painStep` and `patternStep` are the same association-fold with different
collision functions; the generic fold below is proved once and
instantiated for both. -/

/-- Generic dedup-fold step: update the unique entry with the element's
key using `collide`, or append a fresh entry. -/
def assocStep {α : Type} (keyf : α → String) (collide : α → α → α) :
    List (String × α) → α → List (String × α)
  | [], p => [(keyf p, p)]
  | e :: rest, p =>
    if e.1 == keyf p then (e.1, collide e.2 p) :: rest
    else e :: assocStep keyf collide rest p

/-- The merged value an association fold stores for a list of colliding
elements (`none` when there are none). -/
def assocVal {α : Type} (collide : α → α → α) : List α → Option α
  | [] => none
  | x :: rest => some (rest.foldl collide x)

/-- The collision function of the pain-merging loop. -/
def painCollide (v p : Pain) : Pain :=
  { v with
    evidence := v.evidence ++ p.evidence,
    frequency := upgradeFreq v.frequency p.frequency }

/-- The collision function of the pattern-merging loop. -/
def patternCollide (v q : Pattern) : Pattern :=
  { v with occurrences := v.occurrences + q.occurrences }

lemma painStep_eq_assocStep (m : List (String × Pain)) (p : Pain) :
    painStep m p = assocStep painKey painCollide m p := by
  induction m with
  | nil => rfl
  | cons e rest ih => simp [painStep, assocStep, painCollide, ih]

lemma patternStep_eq_assocStep (m : List (String × Pattern)) (q : Pattern) :
    patternStep m q = assocStep patternKey patternCollide m q := by
  induction m with
  | nil => rfl
  | cons e rest ih => simp [patternStep, assocStep, patternCollide, ih]

/-- Invariant tying an association-fold accumulator to the already
processed elements: keys are unique, present exactly for processed keys,
attached to their own values, and each stored value is the
`collide`-merge of all processed elements with that key. -/
def AssocInv {α : Type} (keyf : α → String) (collide : α → α → α)
    (done : List α) (m : List (String × α)) : Prop :=
  (m.map (·.1)).Nodup ∧
  (∀ k, (∃ e ∈ m, e.1 = k) ↔ ∃ p ∈ done, keyf p = k) ∧
  (∀ e ∈ m, e.1 = keyf e.2) ∧
  (∀ e ∈ m, some e.2 = assocVal collide (done.filter (fun q => keyf q == e.1)))

lemma assocStep_of_no_key {α : Type} (keyf : α → String) (collide : α → α → α)
    (m : List (String × α)) (p : α) (h : ∀ e ∈ m, e.1 ≠ keyf p) :
    assocStep keyf collide m p = m ++ [(keyf p, p)] := by
  induction m with
  | nil => rfl
  | cons e rest ih =>
    have he : ¬ (e.1 == keyf p) := by
      simpa using h e (List.mem_cons_self e rest)
    simp only [assocStep, if_neg he, List.cons_append]
    rw [ih (fun e' he' => h e' (List.mem_cons_of_mem e he'))]

lemma assocStep_of_key {α : Type} (keyf : α → String) (collide : α → α → α)
    (m1 m2 : List (String × α)) (v p : α) (k : String) (hk : k = keyf p)
    (h1 : k ∉ m1.map (·.1)) :
    assocStep keyf collide (m1 ++ (k, v) :: m2) p = m1 ++ (k, collide v p) :: m2 := by
  induction m1 with
  | nil => simp [assocStep, hk]
  | cons e rest ih =>
    have he : ¬ (e.1 == keyf p) := by
      rw [← hk]
      simp only [List.map_cons, List.mem_cons] at h1
      simpa using fun hcontra => h1 (Or.inl hcontra.symm)
    simp only [List.cons_append, assocStep, if_neg he, List.append_eq]
    rw [ih (fun hmem => h1 (List.mem_cons_of_mem _ hmem))]

/-- One association-fold step preserves the invariant, extending the
processed list by the new element. -/
lemma assocStep_inv {α : Type} (keyf : α → String) (collide : α → α → α)
    (hkey : ∀ v p, keyf (collide v p) = keyf v)
    (done : List α) (m : List (String × α)) (p : α)
    (h : AssocInv keyf collide done m) :
    AssocInv keyf collide (done ++ [p]) (assocStep keyf collide m p) := by
  obtain ⟨hnd, hiff, hkeys, hval⟩ := h
  by_cases hex : ∃ e ∈ m, e.1 = keyf p
  · obtain ⟨e0, he0m, he0k⟩ := hex
    obtain ⟨m1, m2, rfl⟩ := List.append_of_mem he0m
    have hnd' := hnd
    rw [List.map_append, List.map_cons] at hnd'
    have hmid := List.nodup_middle.mp hnd'
    rw [List.nodup_cons] at hmid
    obtain ⟨hk12, hndrest⟩ := hmid
    have hk1 : e0.1 ∉ m1.map (·.1) := fun hm => hk12 (List.mem_append.mpr (Or.inl hm))
    have hk2 : e0.1 ∉ m2.map (·.1) := fun hm => hk12 (List.mem_append.mpr (Or.inr hm))
    have hstep : assocStep keyf collide (m1 ++ e0 :: m2) p
        = m1 ++ (e0.1, collide e0.2 p) :: m2 := by
      simpa using assocStep_of_key keyf collide m1 m2 e0.2 p e0.1 he0k hk1
    rw [hstep]
    refine ⟨?_, ?_, ?_, ?_⟩
    · rw [List.map_append, List.map_cons]
      exact hnd'
    · intro k
      have hiff' : (∃ e ∈ m1 ++ (e0.1, collide e0.2 p) :: m2, e.1 = k) ↔
          (∃ e ∈ m1 ++ e0 :: m2, e.1 = k) := by
        constructor
        · rintro ⟨e, he, hek⟩
          rcases List.mem_append.mp he with h' | h'
          · exact ⟨e, List.mem_append.mpr (Or.inl h'), hek⟩
          · rcases List.mem_cons.mp h' with h' | h'
            · refine ⟨e0, List.mem_append.mpr (Or.inr (List.mem_cons_self _ _)), ?_⟩
              rw [← hek, h']
            · exact ⟨e, List.mem_append.mpr (Or.inr (List.mem_cons_of_mem _ h')), hek⟩
        · rintro ⟨e, he, hek⟩
          rcases List.mem_append.mp he with h' | h'
          · exact ⟨e, List.mem_append.mpr (Or.inl h'), hek⟩
          · rcases List.mem_cons.mp h' with h' | h'
            · refine ⟨(e0.1, collide e0.2 p),
                List.mem_append.mpr (Or.inr (List.mem_cons_self _ _)), ?_⟩
              rw [← hek, h']
            · exact ⟨e, List.mem_append.mpr (Or.inr (List.mem_cons_of_mem _ h')), hek⟩
      rw [hiff', hiff k]
      constructor
      · rintro ⟨q, hq, hqk⟩
        exact ⟨q, List.mem_append.mpr (Or.inl hq), hqk⟩
      · rintro ⟨q, hq, hqk⟩
        rcases List.mem_append.mp hq with hq | hq
        · exact ⟨q, hq, hqk⟩
        · rw [List.mem_singleton] at hq
          subst hq
          exact (hiff k).mp
            ⟨e0, List.mem_append.mpr (Or.inr (List.mem_cons_self _ _)), he0k.trans hqk⟩
    · intro e he
      rcases List.mem_append.mp he with h' | h'
      · exact hkeys e (List.mem_append.mpr (Or.inl h'))
      · rcases List.mem_cons.mp h' with h' | h'
        · subst h'
          show e0.1 = keyf (collide e0.2 p)
          rw [hkey, ← hkeys e0 (List.mem_append.mpr (Or.inr (List.mem_cons_self _ _)))]
        · exact hkeys e (List.mem_append.mpr (Or.inr (List.mem_cons_of_mem _ h')))
    · intro e he
      have hother : ∀ e', e' ∈ m1 ++ e0 :: m2 → e'.1 ≠ e0.1 ∨ e' = e0 →
          e'.1 ≠ e0.1 → (keyf p == e'.1) = false := by
        intro e' _ _ hne
        rw [← he0k]
        simpa using fun hcontra => hne hcontra.symm
      rcases List.mem_append.mp he with h' | h'
      · have hne : e.1 ≠ e0.1 := by
          intro hcontra
          exact hk1 (hcontra ▸ List.mem_map.mpr ⟨e, h', rfl⟩)
        have hfalse : (keyf p == e.1) = false := by
          rw [← he0k]
          simpa using fun hcontra => hne hcontra.symm
        rw [List.filter_append]
        simp only [List.filter_cons, List.filter_nil, hfalse, Bool.false_eq_true,
          if_false, List.append_nil]
        exact hval e (List.mem_append.mpr (Or.inl h'))
      · rcases List.mem_cons.mp h' with h' | h'
        · subst h'
          have htrue : (keyf p == e0.1) = true := by simp [he0k]
          rw [List.filter_append]
          simp only [List.filter_cons, List.filter_nil, htrue, if_true]
          have hv0 := hval e0 (List.mem_append.mpr (Or.inr (List.mem_cons_self _ _)))
          cases hfil : List.filter (fun q => keyf q == e0.1) done with
          | nil =>
            rw [hfil] at hv0
            simp [assocVal] at hv0
          | cons x rest =>
            rw [hfil] at hv0
            simp only [assocVal, Option.some.injEq] at hv0
            show some (collide e0.2 p) = assocVal collide (x :: rest ++ [p])
            simp only [assocVal, List.cons_append]
            rw [List.foldl_append, ← hv0]
            rfl
        · have hne : e.1 ≠ e0.1 := by
            intro hcontra
            exact hk2 (hcontra ▸ List.mem_map.mpr ⟨e, h', rfl⟩)
          have hfalse : (keyf p == e.1) = false := by
            rw [← he0k]
            simpa using fun hcontra => hne hcontra.symm
          rw [List.filter_append]
          simp only [List.filter_cons, List.filter_nil, hfalse, Bool.false_eq_true,
            if_false, List.append_nil]
          exact hval e (List.mem_append.mpr (Or.inr (List.mem_cons_of_mem _ h')))
  · have hnot : ∀ e ∈ m, e.1 ≠ keyf p := fun e he hk => hex ⟨e, he, hk⟩
    rw [assocStep_of_no_key keyf collide m p hnot]
    refine ⟨?_, ?_, ?_, ?_⟩
    · rw [List.map_append]
      simp only [List.map_cons, List.map_nil]
      rw [List.nodup_append]
      refine ⟨hnd, List.nodup_singleton _, ?_⟩
      intro a ha hb
      rw [List.mem_singleton] at hb
      subst hb
      obtain ⟨e, he, hek⟩ := List.mem_map.mp ha
      exact hnot e he hek
    · intro k
      constructor
      · rintro ⟨e, he, hek⟩
        rcases List.mem_append.mp he with he | he
        · obtain ⟨q, hq, hqk⟩ := (hiff k).mp ⟨e, he, hek⟩
          exact ⟨q, List.mem_append.mpr (Or.inl hq), hqk⟩
        · rw [List.mem_singleton] at he
          subst he
          exact ⟨p, List.mem_append.mpr (Or.inr (List.mem_singleton.mpr rfl)), hek⟩
      · rintro ⟨q, hq, hqk⟩
        rcases List.mem_append.mp hq with hq | hq
        · obtain ⟨e, he, hek⟩ := (hiff k).mpr ⟨q, hq, hqk⟩
          exact ⟨e, List.mem_append.mpr (Or.inl he), hek⟩
        · rw [List.mem_singleton] at hq
          subst hq
          exact ⟨(keyf q, q), List.mem_append.mpr (Or.inr (List.mem_singleton.mpr rfl)), hqk⟩
    · intro e he
      rcases List.mem_append.mp he with he | he
      · exact hkeys e he
      · rw [List.mem_singleton] at he
        subst he
        rfl
    · intro e he
      rcases List.mem_append.mp he with he | he
      · have hfalse : (keyf p == e.1) = false := by
          simpa using fun hcontra => hnot e he hcontra.symm
        rw [List.filter_append]
        simp only [List.filter_cons, List.filter_nil, hfalse, Bool.false_eq_true,
          if_false, List.append_nil]
        exact hval e he
      · rw [List.mem_singleton] at he
        subst he
        have hdone : List.filter (fun q => keyf q == keyf p) done = [] := by
          rw [List.filter_eq_nil_iff]
          intro q hq
          simpa using fun hqk => hex ((hiff (keyf p)).mpr ⟨q, hq, hqk⟩)
        rw [List.filter_append, hdone]
        simp [assocVal]

/-- The association fold maintains its invariant over a whole list. -/
lemma assocFold_inv {α : Type} (keyf : α → String) (collide : α → α → α)
    (hkey : ∀ v p, keyf (collide v p) = keyf v) (l : List α) :
    ∀ (done : List α) (m : List (String × α)), AssocInv keyf collide done m →
      AssocInv keyf collide (done ++ l) (l.foldl (assocStep keyf collide) m) := by
  induction l with
  | nil => intro done m h; simpa using h
  | cons p rest ih =>
    intro done m h
    rw [List.foldl_cons]
    have := ih (done ++ [p]) _ (assocStep_inv keyf collide hkey done m p h)
    simpa [List.append_assoc] using this

/-- The empty accumulator satisfies the invariant for no processed
elements. -/
lemma assocInv_nil {α : Type} (keyf : α → String) (collide : α → α → α) :
    AssocInv keyf collide [] [] := by
  refine ⟨by simp, by simp, by simp, by simp⟩

/-- The pain-merging fold of `mergeAnalysisResults` satisfies the
association-fold invariant. -/
lemma painFold_inv (l : List Pain) : AssocInv painKey painCollide l (l.foldl painStep []) := by
  have heq : painStep = assocStep painKey painCollide :=
    funext fun m => funext fun p => painStep_eq_assocStep m p
  rw [heq]
  simpa using assocFold_inv painKey painCollide (fun v p => rfl) l [] []
    (assocInv_nil painKey painCollide)

/-- The pattern-merging fold of `mergeAnalysisResults` satisfies the
association-fold invariant. -/
lemma patternFold_inv (l : List Pattern) :
    AssocInv patternKey patternCollide l (l.foldl patternStep []) := by
  have heq : patternStep = assocStep patternKey patternCollide :=
    funext fun m => funext fun q => patternStep_eq_assocStep m q
  rw [heq]
  simpa using assocFold_inv patternKey patternCollide (fun v q => rfl) l [] []
    (assocInv_nil patternKey patternCollide)

/-- The highest severity among a list of pains (`low` for the empty
list); `upgradeFreq` is the join of the `low < medium < high` order. -/
def painFreqMax (l : List Pain) : Freq :=
  l.foldl (fun a p => upgradeFreq a p.frequency) .low

/-- The summed occurrences of a list of patterns. -/
def patternOccSum (l : List Pattern) : Int :=
  l.foldl (fun a q => a + q.occurrences) 0

lemma upgradeFreq_low_left (f : Freq) : upgradeFreq .low f = f := by
  cases f <;> rfl

lemma upgradeFreq_low_right (f : Freq) : upgradeFreq f .low = f := by
  cases f <;> rfl

lemma upgradeFreq_comm (a b : Freq) : upgradeFreq a b = upgradeFreq b a := by
  cases a <;> cases b <;> rfl

lemma upgradeFreq_assoc (a b c : Freq) :
    upgradeFreq (upgradeFreq a b) c = upgradeFreq a (upgradeFreq b c) := by
  cases a <;> cases b <;> cases c <;> rfl

lemma foldl_upgradeFreq (a : Freq) (l : List Pain) :
    l.foldl (fun acc p => upgradeFreq acc p.frequency) a = upgradeFreq a (painFreqMax l) := by
  induction l generalizing a with
  | nil => simp [painFreqMax, upgradeFreq_low_right]
  | cons p rest ih =>
    simp only [painFreqMax, List.foldl_cons] at ih ⊢
    rw [ih, ih (upgradeFreq .low p.frequency), upgradeFreq_low_left, upgradeFreq_assoc]

lemma painFreqMax_append (x y : List Pain) :
    painFreqMax (x ++ y) = upgradeFreq (painFreqMax x) (painFreqMax y) := by
  rw [painFreqMax, List.foldl_append]
  exact foldl_upgradeFreq _ y

lemma foldl_occSum (a : Int) (l : List Pattern) :
    l.foldl (fun acc q => acc + q.occurrences) a = a + patternOccSum l := by
  induction l generalizing a with
  | nil => simp [patternOccSum]
  | cons q rest ih =>
    simp only [patternOccSum, List.foldl_cons, Int.zero_add] at ih ⊢
    rw [ih, ih q.occurrences]
    ring

lemma patternOccSum_append (x y : List Pattern) :
    patternOccSum (x ++ y) = patternOccSum x + patternOccSum y := by
  rw [patternOccSum, List.foldl_append]
  exact foldl_occSum _ y

/-- The evidence of a `painCollide` fold is the concatenation of all
participating evidence lists, in order. -/
lemma painCollide_foldl_evidence (x : Pain) (rest : List Pain) :
    (rest.foldl painCollide x).evidence =
      x.evidence ++ (rest.map (·.evidence)).flatten := by
  induction rest generalizing x with
  | nil => simp
  | cons r rs ih =>
    simp only [List.foldl_cons, List.map_cons, List.flatten_cons]
    rw [ih]
    simp [painCollide]

/-- The frequency of a `painCollide` fold is the highest severity seen. -/
lemma painCollide_foldl_frequency (x : Pain) (rest : List Pain) :
    (rest.foldl painCollide x).frequency = painFreqMax (x :: rest) := by
  induction rest generalizing x with
  | nil => simp [painFreqMax, upgradeFreq_low_left]
  | cons r rs ih =>
    simp only [List.foldl_cons]
    rw [ih]
    simp only [painFreqMax, List.foldl_cons, upgradeFreq_low_left]
    rfl

/-- The occurrences of a `patternCollide` fold is the sum of all
participating occurrences. -/
lemma patternCollide_foldl_occurrences (x : Pattern) (rest : List Pattern) :
    (rest.foldl patternCollide x).occurrences = patternOccSum (x :: rest) := by
  induction rest generalizing x with
  | nil => simp [patternOccSum]
  | cons r rs ih =>
    simp only [List.foldl_cons]
    rw [ih]
    simp only [patternOccSum, List.foldl_cons, Int.zero_add]
    rfl

/-- The `results.length === 1` early return does not fire for two or more
results. -/
lemma mergeAnalysisResults_eq_mergeMany (results : List AnalysisResult)
    (h : 2 ≤ results.length) : mergeAnalysisResults results = mergeMany results := by
  match results with
  | [] => simp at h
  | [r] => simp at h
  | a :: b :: rest => rfl

/-- C5 (amended): for every list of at least two chunk analysis results,
the merged pains are deduplicated by case-insensitive description (their
lowercased descriptions are pairwise distinct), each merged pain's
evidence is the concatenation of the evidence of all colliding pains (in
stream order) and its frequency is the highest severity seen among them,
and the final pain list has at most 10 entries. -/
theorem c5_merge_pains_dedup_and_cap (results : List AnalysisResult)
    (h : 2 ≤ results.length) :
    (mergeAnalysisResults results).pains.length ≤ 10 ∧
    ((mergeAnalysisResults results).pains.map painKey).Nodup ∧
    ∀ p ∈ (mergeAnalysisResults results).pains,
      p.evidence = ((((results.map (·.pains)).flatten).filter
        (fun q => painKey q == painKey p)).map (·.evidence)).flatten ∧
      p.frequency = painFreqMax (((results.map (·.pains)).flatten).filter
        (fun q => painKey q == painKey p)) := by
  rw [mergeAnalysisResults_eq_mergeMany results h]
  have hshape : (mergeMany results).pains =
      ((((results.map (·.pains)).flatten).foldl painStep []).map (·.2)).take 10 := rfl
  obtain ⟨hnd, hiff, hkeys, hval⟩ := painFold_inv ((results.map (·.pains)).flatten)
  rw [hshape]
  refine ⟨?_, ?_, ?_⟩
  · rw [List.length_take]
    exact Nat.min_le_left _ _
  · have hm : ((((results.map (·.pains)).flatten).foldl painStep []).map (·.2)).map painKey
        = (((results.map (·.pains)).flatten).foldl painStep []).map (·.1) := by
      rw [List.map_map]
      apply List.map_congr_left
      intro e he
      exact (hkeys e he).symm
    rw [List.map_take, hm]
    exact List.Nodup.sublist (List.take_sublist _ _) hnd
  · intro p hp
    have hp' := List.take_subset _ _ hp
    obtain ⟨e, he, rfl⟩ := List.mem_map.mp hp'
    have hkey := hkeys e he
    have hv := hval e he
    rw [← hkey]
    cases hfil : ((results.map (·.pains)).flatten).filter (fun q => painKey q == e.1) with
    | nil =>
      rw [hfil] at hv
      simp [assocVal] at hv
    | cons x rest =>
      rw [hfil] at hv
      simp only [assocVal, Option.some.injEq] at hv
      constructor
      · rw [hv, painCollide_foldl_evidence]
        simp
      · rw [hv, painCollide_foldl_frequency]

/-- Analysis result for the C5 witness: one "Slow CI" pain of medium
frequency. -/
def cw5A : AnalysisResult :=
  ⟨[⟨"Slow CI", .medium, ["quote A"]⟩], [], [], ⟨[], "frustrated", []⟩, []⟩

/-- Analysis result for the C5 witness: the same pain up to case, high
frequency. -/
def cw5B : AnalysisResult :=
  ⟨[⟨"slow ci", .high, ["quote B"]⟩], [], [], ⟨[], "hopeful", []⟩, []⟩

/-- Witness for the amended C5 on two single-pain results whose
descriptions collide case-insensitively with frequencies medium and
high. -/
theorem c5_merge_pains_dedup_and_cap_witness :
    (mergeAnalysisResults [cw5A, cw5B]).pains.length ≤ 10 ∧
    ((mergeAnalysisResults [cw5A, cw5B]).pains.map painKey).Nodup ∧
    ∀ p ∈ (mergeAnalysisResults [cw5A, cw5B]).pains,
      p.evidence = (((([cw5A, cw5B].map (·.pains)).flatten).filter
        (fun q => painKey q == painKey p)).map (·.evidence)).flatten ∧
      p.frequency = painFreqMax ((([cw5A, cw5B].map (·.pains)).flatten).filter
        (fun q => painKey q == painKey p)) :=
  c5_merge_pains_dedup_and_cap [cw5A, cw5B] (by decide)

/-- A single chunk result carrying 11 distinct pains. -/
def cex5Result : AnalysisResult :=
  ⟨(List.range 11).map (fun i => ⟨"pain " ++ toString i, .low, []⟩),
   [], [], ⟨[], "neutral", []⟩, []⟩

/-- C5 counterexample: for the single-element list `[cex5Result]`,
`mergeAnalysisResults` returns the result unchanged, so its pain list has
11 entries — the claimed 10-entry cap (and the deduplication) do not apply
to every list of chunk results. -/
theorem c5_singleton_cap_counterexample :
    10 < (mergeAnalysisResults [cex5Result]).pains.length := by decide

/-- Under the cap, the `take 10` of the merged pain list is the identity:
the fold has exactly one entry per distinct key. -/
lemma painFold_take_eq (all : List Pain) (h : ((all.map painKey).dedup).length ≤ 10) :
    ((all.foldl painStep []).map (·.2)).take 10 = (all.foldl painStep []).map (·.2) := by
  obtain ⟨hnd, hiff, hkeys, hval⟩ := painFold_inv all
  apply List.take_of_length_le
  rw [List.length_map]
  have hperm : ((all.foldl painStep []).map (·.1)).Perm ((all.map painKey).dedup) := by
    rw [List.perm_ext_iff_of_nodup hnd (List.nodup_dedup _)]
    intro k
    rw [List.mem_dedup]
    constructor
    · intro hk
      obtain ⟨e, he, hek⟩ := List.mem_map.mp hk
      obtain ⟨q, hq, hqk⟩ := (hiff k).mp ⟨e, he, hek⟩
      exact List.mem_map.mpr ⟨q, hq, hqk⟩
    · intro hk
      obtain ⟨q, hq, hqk⟩ := List.mem_map.mp hk
      obtain ⟨e, he, hek⟩ := (hiff k).mpr ⟨q, hq, hqk⟩
      exact List.mem_map.mpr ⟨e, he, hek⟩
  calc (all.foldl painStep []).length
      = ((all.foldl painStep []).map (·.1)).length := (List.length_map _ _).symm
    _ = ((all.map painKey).dedup).length := hperm.length_eq
    _ ≤ 10 := h

/-- Pattern version of `painFold_take_eq`. -/
lemma patternFold_take_eq (all : List Pattern)
    (h : ((all.map patternKey).dedup).length ≤ 10) :
    ((all.foldl patternStep []).map (·.2)).take 10 = (all.foldl patternStep []).map (·.2) := by
  obtain ⟨hnd, hiff, hkeys, hval⟩ := patternFold_inv all
  apply List.take_of_length_le
  rw [List.length_map]
  have hperm : ((all.foldl patternStep []).map (·.1)).Perm ((all.map patternKey).dedup) := by
    rw [List.perm_ext_iff_of_nodup hnd (List.nodup_dedup _)]
    intro k
    rw [List.mem_dedup]
    constructor
    · intro hk
      obtain ⟨e, he, hek⟩ := List.mem_map.mp hk
      obtain ⟨q, hq, hqk⟩ := (hiff k).mp ⟨e, he, hek⟩
      exact List.mem_map.mpr ⟨q, hq, hqk⟩
    · intro hk
      obtain ⟨q, hq, hqk⟩ := List.mem_map.mp hk
      obtain ⟨e, he, hek⟩ := (hiff k).mpr ⟨q, hq, hqk⟩
      exact List.mem_map.mpr ⟨e, he, hek⟩
  calc (all.foldl patternStep []).length
      = ((all.foldl patternStep []).map (·.1)).length := (List.length_map _ _).symm
    _ = ((all.map patternKey).dedup).length := hperm.length_eq
    _ ≤ 10 := h

/-- Membership characterization of the merged pain list: a pain with key
`k` and frequency `f` is present iff some input pain has key `k` and `f`
is the highest severity among the matching input pains. -/
lemma merged_pain_mem (all : List Pain) (k : String) (f : Freq) :
    (∃ p ∈ (all.foldl painStep []).map (·.2), painKey p = k ∧ p.frequency = f) ↔
    ((∃ q ∈ all, painKey q = k) ∧
      f = painFreqMax (all.filter (fun q => painKey q == k))) := by
  obtain ⟨hnd, hiff, hkeys, hval⟩ := painFold_inv all
  constructor
  · rintro ⟨p, hp, hkp, hfp⟩
    obtain ⟨e, he, rfl⟩ := List.mem_map.mp hp
    have hek : e.1 = k := (hkeys e he).trans hkp
    refine ⟨(hiff k).mp ⟨e, he, hek⟩, ?_⟩
    have hv := hval e he
    rw [hek] at hv
    cases hfil : all.filter (fun q => painKey q == k) with
    | nil =>
      rw [hfil] at hv
      simp [assocVal] at hv
    | cons x rest =>
      rw [hfil] at hv
      simp only [assocVal, Option.some.injEq] at hv
      rw [← hfp, hv, painCollide_foldl_frequency]
  · rintro ⟨⟨q0, hq0, hq0k⟩, hf⟩
    obtain ⟨e, he, hek⟩ := (hiff k).mpr ⟨q0, hq0, hq0k⟩
    refine ⟨e.2, List.mem_map.mpr ⟨e, he, rfl⟩, (hkeys e he).symm.trans hek, ?_⟩
    have hv := hval e he
    rw [hek] at hv
    cases hfil : all.filter (fun q => painKey q == k) with
    | nil =>
      rw [hfil] at hv
      simp [assocVal] at hv
    | cons x rest =>
      rw [hfil] at hv
      simp only [assocVal, Option.some.injEq] at hv
      rw [hf, hfil, hv, painCollide_foldl_frequency]

/-- Membership characterization of the merged pattern list. -/
lemma merged_pattern_mem (all : List Pattern) (k : String) (n : Int) :
    (∃ q ∈ (all.foldl patternStep []).map (·.2), patternKey q = k ∧ q.occurrences = n) ↔
    ((∃ q ∈ all, patternKey q = k) ∧
      n = patternOccSum (all.filter (fun q => patternKey q == k))) := by
  obtain ⟨hnd, hiff, hkeys, hval⟩ := patternFold_inv all
  constructor
  · rintro ⟨q, hq, hkq, hnq⟩
    obtain ⟨e, he, rfl⟩ := List.mem_map.mp hq
    have hek : e.1 = k := (hkeys e he).trans hkq
    refine ⟨(hiff k).mp ⟨e, he, hek⟩, ?_⟩
    have hv := hval e he
    rw [hek] at hv
    cases hfil : all.filter (fun q => patternKey q == k) with
    | nil =>
      rw [hfil] at hv
      simp [assocVal] at hv
    | cons x rest =>
      rw [hfil] at hv
      simp only [assocVal, Option.some.injEq] at hv
      rw [← hnq, hv, patternCollide_foldl_occurrences]
  · rintro ⟨⟨q0, hq0, hq0k⟩, hn⟩
    obtain ⟨e, he, hek⟩ := (hiff k).mpr ⟨q0, hq0, hq0k⟩
    refine ⟨e.2, List.mem_map.mpr ⟨e, he, rfl⟩, (hkeys e he).symm.trans hek, ?_⟩
    have hv := hval e he
    rw [hek] at hv
    cases hfil : all.filter (fun q => patternKey q == k) with
    | nil =>
      rw [hfil] at hv
      simp [assocVal] at hv
    | cons x rest =>
      rw [hfil] at hv
      simp only [assocVal, Option.some.injEq] at hv
      rw [hn, hfil, hv, patternCollide_foldl_occurrences]

/-- The merged pain list has one entry per distinct key of the input
stream. -/
lemma painFold_length (all : List Pain) :
    (all.foldl painStep []).length = ((all.map painKey).dedup).length := by
  obtain ⟨hnd, hiff, hkeys, hval⟩ := painFold_inv all
  have hperm : ((all.foldl painStep []).map (·.1)).Perm ((all.map painKey).dedup) := by
    rw [List.perm_ext_iff_of_nodup hnd (List.nodup_dedup _)]
    intro k
    rw [List.mem_dedup]
    constructor
    · intro hk
      obtain ⟨e, he, hek⟩ := List.mem_map.mp hk
      obtain ⟨q, hq, hqk⟩ := (hiff k).mp ⟨e, he, hek⟩
      exact List.mem_map.mpr ⟨q, hq, hqk⟩
    · intro hk
      obtain ⟨q, hq, hqk⟩ := List.mem_map.mp hk
      obtain ⟨e, he, hek⟩ := (hiff k).mpr ⟨q, hq, hqk⟩
      exact List.mem_map.mpr ⟨e, he, hek⟩
  calc (all.foldl painStep []).length
      = ((all.foldl painStep []).map (·.1)).length := (List.length_map _ _).symm
    _ = ((all.map painKey).dedup).length := hperm.length_eq

/-- Pattern version of `painFold_length`. -/
lemma patternFold_length (all : List Pattern) :
    (all.foldl patternStep []).length = ((all.map patternKey).dedup).length := by
  obtain ⟨hnd, hiff, hkeys, hval⟩ := patternFold_inv all
  have hperm : ((all.foldl patternStep []).map (·.1)).Perm ((all.map patternKey).dedup) := by
    rw [List.perm_ext_iff_of_nodup hnd (List.nodup_dedup _)]
    intro k
    rw [List.mem_dedup]
    constructor
    · intro hk
      obtain ⟨e, he, hek⟩ := List.mem_map.mp hk
      obtain ⟨q, hq, hqk⟩ := (hiff k).mp ⟨e, he, hek⟩
      exact List.mem_map.mpr ⟨q, hq, hqk⟩
    · intro hk
      obtain ⟨q, hq, hqk⟩ := List.mem_map.mp hk
      obtain ⟨e, he, hek⟩ := (hiff k).mpr ⟨q, hq, hqk⟩
      exact List.mem_map.mpr ⟨e, he, hek⟩
  calc (all.foldl patternStep []).length
      = ((all.foldl patternStep []).map (·.1)).length := (List.length_map _ _).symm
    _ = ((all.map patternKey).dedup).length := hperm.length_eq

/-- C6 (amended): provided the merged pains and patterns fit under the
10-entry caps (at most 10 distinct case-insensitive keys each), merging
`[A, B]` and `[B, A]` yields the same set of (key, frequency) pains and
the same set of (key, occurrences) patterns, with equal list lengths —
frequency upgrades and occurrence sums do not depend on chunk order. -/
theorem c6_merge_order_commutes (A B : AnalysisResult)
    (hp : (((A.pains ++ B.pains).map painKey).dedup).length ≤ 10)
    (hq : (((A.patterns ++ B.patterns).map patternKey).dedup).length ≤ 10) :
    (∀ k f, (∃ p ∈ (mergeAnalysisResults [A, B]).pains, painKey p = k ∧ p.frequency = f)
      ↔ (∃ p ∈ (mergeAnalysisResults [B, A]).pains, painKey p = k ∧ p.frequency = f)) ∧
    (∀ k n, (∃ q ∈ (mergeAnalysisResults [A, B]).patterns,
        patternKey q = k ∧ q.occurrences = n)
      ↔ (∃ q ∈ (mergeAnalysisResults [B, A]).patterns,
        patternKey q = k ∧ q.occurrences = n)) ∧
    (mergeAnalysisResults [A, B]).pains.length =
      (mergeAnalysisResults [B, A]).pains.length ∧
    (mergeAnalysisResults [A, B]).patterns.length =
      (mergeAnalysisResults [B, A]).patterns.length := by
  have hp' : (((B.pains ++ A.pains).map painKey).dedup).length ≤ 10 := by
    rw [← ((List.perm_append_comm.map painKey).dedup).length_eq]
    exact hp
  have hq' : (((B.patterns ++ A.patterns).map patternKey).dedup).length ≤ 10 := by
    rw [← ((List.perm_append_comm.map patternKey).dedup).length_eq]
    exact hq
  have e1 := mergeAnalysisResults_eq_mergeMany [A, B] (by simp)
  have e2 := mergeAnalysisResults_eq_mergeMany [B, A] (by simp)
  have hAB : ([A, B].map (·.pains)).flatten = A.pains ++ B.pains := by simp
  have hBA : ([B, A].map (·.pains)).flatten = B.pains ++ A.pains := by simp
  have hABq : ([A, B].map (·.patterns)).flatten = A.patterns ++ B.patterns := by simp
  have hBAq : ([B, A].map (·.patterns)).flatten = B.patterns ++ A.patterns := by simp
  have hpains1 : (mergeMany [A, B]).pains =
      (((A.pains ++ B.pains).foldl painStep []).map (·.2)) := by
    show (((([A, B].map (·.pains)).flatten).foldl painStep []).map (·.2)).take 10 = _
    rw [hAB, painFold_take_eq _ hp]
  have hpains2 : (mergeMany [B, A]).pains =
      (((B.pains ++ A.pains).foldl painStep []).map (·.2)) := by
    show (((([B, A].map (·.pains)).flatten).foldl painStep []).map (·.2)).take 10 = _
    rw [hBA, painFold_take_eq _ hp']
  have hpat1 : (mergeMany [A, B]).patterns =
      (((A.patterns ++ B.patterns).foldl patternStep []).map (·.2)) := by
    show (((([A, B].map (·.patterns)).flatten).foldl patternStep []).map (·.2)).take 10 = _
    rw [hABq, patternFold_take_eq _ hq]
  have hpat2 : (mergeMany [B, A]).patterns =
      (((B.patterns ++ A.patterns).foldl patternStep []).map (·.2)) := by
    show (((([B, A].map (·.patterns)).flatten).foldl patternStep []).map (·.2)).take 10 = _
    rw [hBAq, patternFold_take_eq _ hq']
  have hmemc : ∀ k, (∃ q ∈ A.pains ++ B.pains, painKey q = k)
      ↔ (∃ q ∈ B.pains ++ A.pains, painKey q = k) := by
    intro k
    constructor <;>
      (rintro ⟨q, hq0, hk0⟩
       exact ⟨q, List.mem_append.mpr (List.mem_append.mp hq0).symm, hk0⟩)
  have hfreqc : ∀ k, painFreqMax ((A.pains ++ B.pains).filter (fun q => painKey q == k))
      = painFreqMax ((B.pains ++ A.pains).filter (fun q => painKey q == k)) := by
    intro k
    rw [List.filter_append, List.filter_append, painFreqMax_append, painFreqMax_append,
      upgradeFreq_comm]
  have hmemcq : ∀ k, (∃ q ∈ A.patterns ++ B.patterns, patternKey q = k)
      ↔ (∃ q ∈ B.patterns ++ A.patterns, patternKey q = k) := by
    intro k
    constructor <;>
      (rintro ⟨q, hq0, hk0⟩
       exact ⟨q, List.mem_append.mpr (List.mem_append.mp hq0).symm, hk0⟩)
  have hoccc : ∀ k, patternOccSum ((A.patterns ++ B.patterns).filter
        (fun q => patternKey q == k))
      = patternOccSum ((B.patterns ++ A.patterns).filter (fun q => patternKey q == k)) := by
    intro k
    rw [List.filter_append, List.filter_append, patternOccSum_append, patternOccSum_append,
      Int.add_comm]
  refine ⟨?_, ?_, ?_, ?_⟩
  · intro k f
    rw [e1, e2, hpains1, hpains2, merged_pain_mem, merged_pain_mem]
    constructor
    · rintro ⟨hex, hf⟩
      exact ⟨(hmemc k).mp hex, hf.trans (hfreqc k)⟩
    · rintro ⟨hex, hf⟩
      exact ⟨(hmemc k).mpr hex, hf.trans (hfreqc k).symm⟩
  · intro k n
    rw [e1, e2, hpat1, hpat2, merged_pattern_mem, merged_pattern_mem]
    constructor
    · rintro ⟨hex, hn⟩
      exact ⟨(hmemcq k).mp hex, hn.trans (hoccc k)⟩
    · rintro ⟨hex, hn⟩
      exact ⟨(hmemcq k).mpr hex, hn.trans (hoccc k).symm⟩
  · rw [e1, e2, hpains1, hpains2, List.length_map, List.length_map, painFold_length,
      painFold_length, ((List.perm_append_comm.map painKey).dedup).length_eq]
  · rw [e1, e2, hpat1, hpat2, List.length_map, List.length_map, patternFold_length,
      patternFold_length, ((List.perm_append_comm.map patternKey).dedup).length_eq]

/-- Chunk result for the C6 witness: one pain, one pattern. -/
def cw6A : AnalysisResult :=
  ⟨[⟨"Slow CI", .medium, ["a"]⟩], [⟨"Migration", "desc A", 3⟩], [], ⟨[], "t", []⟩, []⟩

/-- Chunk result for the C6 witness: colliding pain and pattern keys plus
a fresh pain. -/
def cw6B : AnalysisResult :=
  ⟨[⟨"slow ci", .high, ["b"]⟩, ⟨"No docs", .low, []⟩],
   [⟨"migration", "desc B", 4⟩], [], ⟨[], "u", []⟩, []⟩

/-- Witness for the amended C6 on two small chunk results within the
caps. -/
theorem c6_merge_order_commutes_witness :
    (∀ k f, (∃ p ∈ (mergeAnalysisResults [cw6A, cw6B]).pains,
        painKey p = k ∧ p.frequency = f)
      ↔ (∃ p ∈ (mergeAnalysisResults [cw6B, cw6A]).pains,
        painKey p = k ∧ p.frequency = f)) ∧
    (∀ k n, (∃ q ∈ (mergeAnalysisResults [cw6A, cw6B]).patterns,
        patternKey q = k ∧ q.occurrences = n)
      ↔ (∃ q ∈ (mergeAnalysisResults [cw6B, cw6A]).patterns,
        patternKey q = k ∧ q.occurrences = n)) ∧
    (mergeAnalysisResults [cw6A, cw6B]).pains.length =
      (mergeAnalysisResults [cw6B, cw6A]).pains.length ∧
    (mergeAnalysisResults [cw6A, cw6B]).patterns.length =
      (mergeAnalysisResults [cw6B, cw6A]).patterns.length :=
  c6_merge_order_commutes cw6A cw6B (by decide) (by decide)

/-- Ten distinct pains, filling the cap. -/
def cex6A : AnalysisResult :=
  ⟨(List.range 10).map (fun i => ⟨"pain " ++ toString i, .low, []⟩),
   [], [], ⟨[], "t", []⟩, []⟩

/-- One further pain with an eleventh distinct key. -/
def cex6B : AnalysisResult :=
  ⟨[⟨"extra pain", .low, []⟩], [], [], ⟨[], "u", []⟩, []⟩

/-- C6 counterexample: with 11 distinct pain keys the 10-entry cap keeps
different keys depending on chunk order — merging `[B, A]` retains the
pain "extra pain" while merging `[A, B]` drops it, so the merged pain
sets are NOT order-independent as claimed. -/
theorem c6_cap_order_counterexample :
    (∃ p ∈ (mergeAnalysisResults [cex6B, cex6A]).pains, painKey p = "extra pain") ∧
    ¬ (∃ p ∈ (mergeAnalysisResults [cex6A, cex6B]).pains, painKey p = "extra pain") := by
  decide

/-! ### Fence-stripping lemmas for C7 -/

lemma dropWhile_head_false (p : Char → Bool) (l : List Char) :
    ∀ c rest, l.dropWhile p = c :: rest → p c = false := by
  induction l with
  | nil => intro c rest h; simp [List.dropWhile] at h
  | cons a l' ih =>
    intro c rest h
    rw [List.dropWhile_cons] at h
    split at h
    · exact ih c rest h
    · rename_i ha
      cases h
      simpa using ha

lemma dropWhile_idem (p : Char → Bool) (l : List Char) :
    (l.dropWhile p).dropWhile p = l.dropWhile p := by
  cases hd : l.dropWhile p with
  | nil => rfl
  | cons c rest =>
    rw [List.dropWhile_cons, dropWhile_head_false p l c rest hd]
    simp

lemma trimLeft_cons_of_ws {c : Char} (h : isJsWs c = true) (s : List Char) :
    trimLeft (c :: s) = trimLeft s := by
  simp [trimLeft, List.dropWhile_cons, h]

lemma trimLeft_cons_of_not {c : Char} (h : isJsWs c = false) (s : List Char) :
    trimLeft (c :: s) = c :: s := by
  simp [trimLeft, List.dropWhile_cons, h]

lemma jsTrim_cons_ws {c : Char} (h : isJsWs c = true) (s : List Char) :
    jsTrim (c :: s) = jsTrim s := by
  unfold jsTrim
  rw [trimLeft_cons_of_ws h]

lemma jsTrim_append_ws {c : Char} (h : isJsWs c = true) (s : List Char) :
    jsTrim (s ++ [c]) = jsTrim s := by
  unfold jsTrim trimLeft
  rw [List.dropWhile_append]
  split
  · rename_i hemp
    rw [List.isEmpty_iff] at hemp
    rw [hemp]
    simp [List.dropWhile_cons, h]
  · rw [List.reverse_append]
    simp only [List.reverse_cons, List.reverse_nil, List.nil_append, List.singleton_append]
    rw [List.dropWhile_cons]
    simp [h]

lemma jsTrim_idem (s : List Char) : jsTrim (jsTrim s) = jsTrim s := by
  have hpre : jsTrim s <+: s.dropWhile isJsWs := by
    have hsuf := List.dropWhile_suffix (l := (s.dropWhile isJsWs).reverse) isJsWs
    have h0 := List.reverse_prefix.mpr hsuf
    rw [List.reverse_reverse] at h0
    exact h0
  have hrev : (jsTrim s).reverse = (trimLeft s).reverse.dropWhile isJsWs := by
    unfold jsTrim
    rw [List.reverse_reverse]
  have h2 : (jsTrim s).reverse.dropWhile isJsWs = (jsTrim s).reverse := by
    rw [hrev, dropWhile_idem]
  have h1 : trimLeft (jsTrim s) = jsTrim s := by
    cases hr : jsTrim s with
    | nil => rfl
    | cons c r' =>
      obtain ⟨tail, htail⟩ := hpre
      have hc : isJsWs c = false := by
        apply dropWhile_head_false isJsWs s c (r' ++ tail)
        rw [← htail, hr, List.cons_append]
      exact trimLeft_cons_of_not hc r'
  calc jsTrim (jsTrim s)
      = ((trimLeft (jsTrim s)).reverse.dropWhile isJsWs).reverse := rfl
    _ = ((jsTrim s).reverse.dropWhile isJsWs).reverse := by rw [h1]
    _ = ((jsTrim s).reverse).reverse := by rw [h2]
    _ = jsTrim s := List.reverse_reverse _

/-- `"```json".toList` and friends, in backtick-explicit form. -/
lemma fence_json_toList :
    "```json".toList = backtick :: backtick :: backtick :: 'j' :: 's' :: 'o' :: 'n' :: [] :=
  rfl

lemma fence_toList : "```".toList = backtick :: backtick :: backtick :: [] := rfl

lemma listStartsWith_backtick_false (p s : List Char) (hp : p.head? = some backtick)
    (h : s.head? ≠ some backtick) : listStartsWith p s = false := by
  unfold listStartsWith
  apply decide_eq_false
  intro hcontra
  cases s with
  | nil =>
    rw [List.take_nil] at hcontra
    rw [← hcontra] at hp
    simp at hp
  | cons a s' =>
    cases p with
    | nil => simp at hp
    | cons b p' =>
      rw [List.length_cons, List.take_succ_cons] at hcontra
      have hab : a = b := (List.cons.injEq _ _ _ _ ▸ hcontra).1
      rw [List.head?_cons, Option.some.injEq] at hp
      exact h (by rw [List.head?_cons, hab, hp])

lemma listEndsWith_backtick_false (p s : List Char) (hp : p.reverse.head? = some backtick)
    (h : s.getLast? ≠ some backtick) : listEndsWith p s = false := by
  unfold listEndsWith
  apply decide_eq_false
  intro hcontra
  have h' : s.reverse.head? ≠ some backtick := by
    rw [List.head?_reverse]
    exact h
  cases hs : s.reverse with
  | nil =>
    rw [hs, List.take_nil] at hcontra
    rw [← hcontra] at hp
    simp at hp
  | cons a rs =>
    cases hpr : p.reverse with
    | nil => rw [hpr] at hp; simp at hp
    | cons b pr =>
      have hlen : p.length = pr.length + 1 := by
        rw [← List.length_reverse, hpr, List.length_cons]
      rw [hs, hpr, hlen, List.take_succ_cons] at hcontra
      have hab : a = b := (List.cons.injEq _ _ _ _ ▸ hcontra).1
      rw [hpr, List.head?_cons, Option.some.injEq] at hp
      exact h' (by rw [hs, List.head?_cons, hab, hp])

/-- The fence-stripping stage leaves an already fence-free response (one
whose trimmed text neither starts nor ends with a backtick, as any JSON
value text) exactly trimmed. -/
lemma stripFences_plain (t : List Char) (h1 : (jsTrim t).head? ≠ some backtick)
    (h2 : (jsTrim t).getLast? ≠ some backtick) : stripFences t = jsTrim t := by
  unfold stripFences
  dsimp only
  rw [listStartsWith_backtick_false "```json".toList (jsTrim t) rfl h1,
    listStartsWith_backtick_false "```".toList (jsTrim t) rfl h1]
  simp only [Bool.false_eq_true, if_false]
  rw [listEndsWith_backtick_false "```".toList (jsTrim t) rfl h2]
  simp only [Bool.false_eq_true, if_false]
  exact jsTrim_idem t

/-- `jsTrim` leaves a string delimited by non-whitespace characters
unchanged. -/
lemma jsTrim_sandwich {c d : Char} (hc : isJsWs c = false) (hd : isJsWs d = false)
    (s : List Char) : jsTrim (c :: (s ++ [d])) = c :: (s ++ [d]) := by
  unfold jsTrim
  rw [trimLeft_cons_of_not hc]
  rw [show (c :: (s ++ [d])).reverse = d :: (s.reverse ++ [c]) from by simp]
  rw [List.dropWhile_cons, hd]
  simp only [Bool.false_eq_true, if_false]
  rw [show (d :: (s.reverse ++ [c])).reverse = c :: (s ++ [d]) from by simp]

/-- The fence-stripping stage undoes the ```` ```json ```` wrapping
exactly, leaving the trimmed inner text. -/
lemma stripFences_wrap (t : List Char) : stripFences (wrapJsonFence t) = jsTrim t := by
  have hw : wrapJsonFence t
      = backtick :: ((backtick :: backtick :: 'j' :: 's' :: 'o' :: 'n' :: '\n' ::
          (t ++ '\n' :: backtick :: backtick :: [])) ++ [backtick]) := by
    show ("```json\n".toList ++ t) ++ "\n```".toList = _
    rw [show "```json\n".toList
        = backtick :: backtick :: backtick :: 'j' :: 's' :: 'o' :: 'n' :: '\n' :: [] from rfl,
      show "\n```".toList = '\n' :: backtick :: backtick :: backtick :: [] from rfl]
    simp
  have hstart : listStartsWith "```json".toList
      (backtick :: ((backtick :: backtick :: 'j' :: 's' :: 'o' :: 'n' :: '\n' ::
        (t ++ '\n' :: backtick :: backtick :: [])) ++ [backtick])) = true := rfl
  have hdrop : (backtick :: ((backtick :: backtick :: 'j' :: 's' :: 'o' :: 'n' :: '\n' ::
      (t ++ '\n' :: backtick :: backtick :: [])) ++ [backtick])).drop 7
      = '\n' :: ((t ++ '\n' :: backtick :: backtick :: []) ++ [backtick]) := rfl
  have hsplit : '\n' :: ((t ++ '\n' :: backtick :: backtick :: []) ++ [backtick])
      = ('\n' :: (t ++ ['\n'])) ++ [backtick, backtick, backtick] := by simp
  have hend : listEndsWith "```".toList
      (('\n' :: (t ++ ['\n'])) ++ [backtick, backtick, backtick]) = true := by
    unfold listEndsWith
    apply decide_eq_true
    rw [List.reverse_append]
    rfl
  have htake : ((('\n' :: (t ++ ['\n'])) ++ [backtick, backtick, backtick]).take
      ((('\n' :: (t ++ ['\n'])) ++ [backtick, backtick, backtick]).length - 3))
      = '\n' :: (t ++ ['\n']) := by
    apply List.take_left'
    simp
  unfold stripFences
  dsimp only
  rw [hw, jsTrim_sandwich (c := backtick) (d := backtick) rfl rfl, hstart]
  simp only [eq_self_iff_true, if_true]
  rw [hdrop, hsplit, hend]
  simp only [eq_self_iff_true, if_true]
  rw [htake, jsTrim_cons_ws (c := '\n') rfl, jsTrim_append_ws (c := '\n') rfl]

/-- C7: wrapping a fence-free response text (one whose trimmed form
neither starts nor ends with a backtick, as any JSON value text) in a
leading ```` ```json ```` fence and a trailing ```` ``` ```` fence and
parsing yields the same result as parsing the unwrapped text, for every
JSON parser. -/
theorem c7_fence_wrap_roundtrip (jsonParse : List Char → Option Json) (t : List Char)
    (h1 : (jsTrim t).head? ≠ some backtick)
    (h2 : (jsTrim t).getLast? ≠ some backtick) :
    parseAnalysisResponse jsonParse (wrapJsonFence t) = parseAnalysisResponse jsonParse t := by
  unfold parseAnalysisResponse
  rw [stripFences_wrap, stripFences_plain t h1 h2]

/-- Witness for C7 at the concrete JSON text `[1, 2]` and a concrete
parser. -/
theorem c7_fence_wrap_roundtrip_witness :
    parseAnalysisResponse (fun _ => some Json.null) (wrapJsonFence "[1, 2]".toList)
      = parseAnalysisResponse (fun _ => some Json.null) "[1, 2]".toList :=
  c7_fence_wrap_roundtrip (fun _ => some Json.null) "[1, 2]".toList (by decide) (by decide)

end SubredditInsights
